/-
Verification of the delay-line audio effects in JUCE-audio-effects
(src/Flanger.h and src/PitchShifter.h).

The two C++ classes are shallowly embedded: every member function becomes a
Lean function on an explicit state record, float/double arithmetic is modelled
by an abstract linearly ordered field `α` (instantiated at `ℝ` when facts
about the real sine function are needed, and at `ℚ` for concrete witnesses),
and the C library `sin` together with the JUCE constant `double_Pi` are passed
in as parameters `sin : α → α` and `double_Pi : α`.  C++ `int` arithmetic is
modelled by `ℤ` with explicit truncating division/remainder (`Int.tdiv`,
`Int.tmod`), and `static_cast<int>` on a floating value by truncation toward
zero.  A JUCE `AudioBuffer<float>` is modelled by its sample count together
with a total map from channel and (integer) index to the stored sample.
-/
import Mathlib

set_option maxHeartbeats 1000000
set_option linter.unusedVariables false
set_option linter.unusedSectionVars false

variable {α : Type} [LinearOrderedField α] [FloorRing α]

/-- Models C++ `int` division (truncation toward zero), as in
`maxDelayInSamples/2` at Flanger.h line 109. -/
def cppDiv (a b : ℤ) : ℤ := Int.tdiv a b

/-- Models C++ `int` remainder `%` (sign follows the dividend), as in the
read-position computations and the `%=` of the commit operations. -/
def cppMod (a b : ℤ) : ℤ := Int.tmod a b

/-- Models C++ `static_cast<int>` applied to a floating value: truncation
toward zero. -/
def cppTrunc (x : α) : ℤ := if 0 ≤ x then ⌊x⌋ else ⌈x⌉

/-- Models `juce::AudioBuffer<float>`: the allocated length per channel
(`getNumSamples()`) and the stored samples, as a total map from channel and
integer index to sample value.  The repository uses exactly two channels. -/
structure AudioBuffer (α : Type) where
  numSamples : ℤ
  data : Fin 2 → ℤ → α

/-- Models `AudioBuffer::setSize(numChannels, newNumSamples)`: records the new
length, keeping existing contents (the repository always calls `clear` right
after). -/
def AudioBuffer.setSize (b : AudioBuffer α) (numChannels newNumSamples : ℤ) : AudioBuffer α :=
  { b with numSamples := newNumSamples }

/-- Models `AudioBuffer::clear()`: every stored sample becomes `0`. -/
def AudioBuffer.clear (b : AudioBuffer α) : AudioBuffer α :=
  { b with data := fun _ _ => 0 }

/-- Models `AudioBuffer::setSample(channel, index, value)`. -/
def AudioBuffer.setSample (b : AudioBuffer α) (channel : Fin 2) (idx : ℤ) (value : α) :
    AudioBuffer α :=
  { b with data := fun c j => if c = channel ∧ j = idx then value else b.data c j }

/-- Models `AudioBuffer::copyFromWithRamp(channel, destStart, source, num, startGain, endGain)`
in the constant-gain case `startGain = endGain` — the only way this repository
ever calls it: samples `source[0..num)` are copied, scaled by `startGain`, to
indices `destStart..destStart+num` of `channel`; everything else is kept. -/
def AudioBuffer.copyFromWithRamp (b : AudioBuffer α) (channel : Fin 2) (destStart : ℤ)
    (source : ℤ → α) (num : ℤ) (startGain endGain : α) : AudioBuffer α :=
  { b with data := fun c j =>
      if c = channel ∧ destStart ≤ j ∧ j < destStart + num then
        startGain * source (j - destStart)
      else b.data c j }

/-- The phase-accumulator update shared by `Flanger::lfo_sinewave` (Flanger.h
lines 107-108) and `PitchShifter::sawtooth1/2` (PitchShifter.h lines 99-100,
109-110): add the per-sample increment, then subtract `1` once the phase
reaches `1`. -/
def phaseStep (p inc : α) : α :=
  let q := p + inc
  if 1 ≤ q then q - 1 else q

/-- Iterates `phaseStep` with a fixed increment: the phase after `n` advances. -/
def phaseIterate (inc : α) : ℕ → α → α
  | 0, p => p
  | n + 1, p => phaseStep (phaseIterate inc n p) inc

/-- State of the `Flanger` class (Flanger.h lines 161-175), one field per C++
data member. -/
structure Flanger (α : Type) where
  sinePhase : Fin 2 → α
  sinefrequency : α
  flangerDepth : α
  feedbackLevel : α
  sampleRate : α
  delayBufferWritePosition : ℤ
  feedbackBufferWritePosition : ℤ
  transposition_range : ℤ
  delayBufferSize : ℤ
  delayBuffer : AudioBuffer α
  feedbackBuffer : AudioBuffer α

/-- Models the `Flanger()` constructor: members with initializers get their
initial values; `transposition_range`, `delayBufferSize` and the (empty)
buffers are not initialized there, so their junk contents are taken as
arguments. -/
def Flanger.construct (tr dbs : ℤ) (db fb : AudioBuffer α) : Flanger α :=
  { sinePhase := fun _ => 0
    sinefrequency := 0
    flangerDepth := 0
    feedbackLevel := 0
    sampleRate := 44100
    delayBufferWritePosition := 0
    feedbackBufferWritePosition := 0
    transposition_range := tr
    delayBufferSize := dbs
    delayBuffer := db
    feedbackBuffer := fb }

/-- Models `Flanger::initialize(SamplesPerBlockExpected, SampleRate)`
(Flanger.h lines 22-32).  `TP_RANGE = 0.010`, and the `double`-to-`int`
assignment truncates. -/
def Flanger.initEngine (st : Flanger α) (SamplesPerBlockExpected : ℤ) (SampleRate : α) :
    Flanger α :=
  let tr := cppTrunc ((1 / 100 : α) * SampleRate)
  let size := SamplesPerBlockExpected + tr
  { st with
    transposition_range := tr
    delayBufferSize := size
    delayBuffer := AudioBuffer.clear (AudioBuffer.setSize st.delayBuffer 2 size)
    feedbackBuffer := AudioBuffer.clear (AudioBuffer.setSize st.feedbackBuffer 2 size) }

/-- The waveform value computed at Flanger.h line 109:
`(maxDelayInSamples/2)*(sin(2*double_Pi*phase)+1)`, where the division
`maxDelayInSamples/2` is C++ `int` division. -/
def lfoWave (sin : α → α) (double_Pi : α) (maxDelayInSamples : ℤ) (p : α) : α :=
  ((cppDiv maxDelayInSamples 2 : ℤ) : α) * (sin (2 * double_Pi * p) + 1)

/-- Models `Flanger::lfo_sinewave(maxDelayInSamples, channel)` (Flanger.h
lines 105-110): advance the channel's phase, then return the waveform value at
the new phase. -/
def Flanger.lfo_sinewave (sin : α → α) (double_Pi : α) (st : Flanger α)
    (maxDelayInSamples : ℤ) (channel : Fin 2) : Flanger α × α :=
  let p := phaseStep (st.sinePhase channel) (st.sinefrequency / st.sampleRate)
  ({ st with sinePhase := Function.update st.sinePhase channel p },
   lfoWave sin double_Pi maxDelayInSamples p)

/-- Models `Flanger::fillDelaybuffer(bufferLength, channel, delayBufferLength, bufferData, gain)`
(Flanger.h lines 86-99): one copy when the block fits before the end of the
delay buffer, otherwise the tail segment followed by the wrapped remainder at
index `0`. -/
def Flanger.fillDelaybuffer (st : Flanger α) (bufferLength : ℤ) (channel : Fin 2)
    (delayBufferLength : ℤ) (bufferData : ℤ → α) (gain : α) : Flanger α :=
  if delayBufferLength > bufferLength + st.delayBufferWritePosition then
    let whole := AudioBuffer.copyFromWithRamp st.delayBuffer channel
      st.delayBufferWritePosition bufferData bufferLength gain gain
    { st with delayBuffer := whole }
  else
    let delayBufferRemaining := delayBufferLength - st.delayBufferWritePosition
    let tailPart := AudioBuffer.copyFromWithRamp st.delayBuffer channel
      st.delayBufferWritePosition bufferData delayBufferRemaining gain gain
    let wrapped := AudioBuffer.copyFromWithRamp tailPart channel 0
      (fun k => bufferData (delayBufferRemaining + k)) (bufferLength - delayBufferRemaining)
      gain gain
    { st with delayBuffer := wrapped }

/-- One iteration of the loop of `Flanger::process` (Flanger.h lines 48-79) at
loop index `sample`: advance the LFO, read the delay and feedback buffers at
the two interpolation positions (both read pointers are taken at offset
`startSample`, as in the source), mix according to `feedbackLevel == 0`, store
the raw output into the feedback buffer, and emit `DeviceGain*output`. -/
def Flanger.processStep (sin : α → α) (double_Pi : α) (st : Flanger α) (inp : ℤ → α)
    (startSample : ℤ) (maxDelayInSamples : ℤ) (channel : Fin 2) (DeviceGain : α)
    (sample : ℕ) : Flanger α × α :=
  let L := st.delayBuffer.numSamples
  let q := Flanger.lfo_sinewave sin double_Pi st maxDelayInSamples channel
  let st1 := q.1
  let delayTime := q.2
  let delayTimeInSamples := cppTrunc delayTime
  let fractionalDelay := delayTime - (delayTimeInSamples : α)
  let readPosition1 := cppMod (L + st1.delayBufferWritePosition - delayTimeInSamples) L
  let readPosition2 := cppMod (L + st1.delayBufferWritePosition - delayTimeInSamples - 1) L
  let dread := fun r : ℤ => st1.delayBuffer.data channel (startSample + cppMod (r + sample) L)
  let fread := fun r : ℤ => st1.feedbackBuffer.data channel (startSample + cppMod (r + sample) L)
  let output :=
    if st1.feedbackLevel = 0 then
      inp (startSample + sample)
        + st1.flangerDepth * ((1 - fractionalDelay) * dread readPosition1
            + fractionalDelay * dread readPosition2)
        + st1.feedbackLevel * ((1 - fractionalDelay) * fread readPosition1
            + fractionalDelay * fread readPosition2)
    else
      st1.flangerDepth * ((1 - fractionalDelay) * dread readPosition1
          + fractionalDelay * dread readPosition2)
        + st1.feedbackLevel * ((1 - fractionalDelay) * fread readPosition1
            + fractionalDelay * fread readPosition2)
  let fb2 := AudioBuffer.setSample st1.feedbackBuffer channel
    (cppMod (st1.feedbackBufferWritePosition + sample) L) output
  ({ st1 with feedbackBuffer := fb2 }, DeviceGain * output)

/-- The state after the first `n` iterations of the loop of `Flanger::process`. -/
def Flanger.loopState (sin : α → α) (double_Pi : α) (st : Flanger α) (inp : ℤ → α)
    (startSample : ℤ) (maxDelayInSamples : ℤ) (channel : Fin 2) (DeviceGain : α) :
    ℕ → Flanger α
  | 0 => st
  | n + 1 =>
      (Flanger.processStep sin double_Pi
        (Flanger.loopState sin double_Pi st inp startSample maxDelayInSamples channel
          DeviceGain n)
        inp startSample maxDelayInSamples channel DeviceGain n).1

/-- Models `Flanger::process(inbuffer, startSample, numSamples, maxDelayInSamples, channel, DeviceGain)`
(Flanger.h lines 39-80).  The input array of the processed channel is `inp`
and its total length (`inbuffer->getNumSamples()`) is `inLen`.  Returns the
final state together with the list of samples written to
`writeBuffer[0..numSamples)`, i.e. to `inp` at offset `startSample`. -/
def Flanger.process (sin : α → α) (double_Pi : α) (st : Flanger α) (inp : ℤ → α) (inLen : ℤ)
    (startSample : ℤ) (numSamples : ℕ) (maxDelayInSamples : ℤ) (channel : Fin 2)
    (DeviceGain : α) : Flanger α × List α :=
  let st1 := Flanger.fillDelaybuffer st inLen channel st.delayBuffer.numSamples
    (fun i => inp (startSample + i)) 1
  (Flanger.loopState sin double_Pi st1 inp startSample maxDelayInSamples channel DeviceGain
      numSamples,
   List.ofFn fun i : Fin numSamples =>
     (Flanger.processStep sin double_Pi
        (Flanger.loopState sin double_Pi st1 inp startSample maxDelayInSamples channel
          DeviceGain i)
        inp startSample maxDelayInSamples channel DeviceGain i).2)

/-- Models `Flanger::adjustDelayBufferWritePosition(numsamplesInBuffer)`
(Flanger.h lines 120-124): `+=` then `%=` against the member `delayBufferSize`. -/
def Flanger.adjustDelayBufferWritePosition (st : Flanger α) (numsamplesInBuffer : ℤ) :
    Flanger α :=
  { st with delayBufferWritePosition :=
      cppMod (st.delayBufferWritePosition + numsamplesInBuffer) st.delayBufferSize }

/-- Models `Flanger::adjustFeedBackBufferWritePosition(numsamplesInBuffer)`
(Flanger.h lines 130-134). -/
def Flanger.adjustFeedBackBufferWritePosition (st : Flanger α) (numsamplesInBuffer : ℤ) :
    Flanger α :=
  { st with feedbackBufferWritePosition :=
      cppMod (st.feedbackBufferWritePosition + numsamplesInBuffer) st.delayBufferSize }

/-- Models `Flanger::setDepth`. -/
def Flanger.setDepth (st : Flanger α) (depth : α) : Flanger α :=
  { st with flangerDepth := depth }

/-- Models `Flanger::setFeedback`. -/
def Flanger.setFeedback (st : Flanger α) (feedback : α) : Flanger α :=
  { st with feedbackLevel := feedback }

/-- Models `Flanger::setLFO`. -/
def Flanger.setLFO (st : Flanger α) (rate : α) : Flanger α :=
  { st with sinefrequency := rate }

/-- State of the `PitchShifter` class (PitchShifter.h lines 148-158), one
field per C++ data member. -/
structure PitchShifter (α : Type) where
  sawtoothPhase1 : Fin 2 → α
  sawtoothPhase2 : Fin 2 → α
  sawtoothFrequency : α
  sampleRate : α
  delayBufferWritePosition : ℤ
  transposition_range : ℤ
  delayBufferSize : ℤ
  pitchUporDown : Bool
  delayBuffer : AudioBuffer α

/-- Models the `PitchShifter()` constructor: `sawtoothPhase1 = {0,0}`,
`sawtoothPhase2 = {0.5,0.5}`, `sawtoothFrequency = 0`, `sampleRate = 44100`,
`delayBufferWritePosition = 0`, `pitchUporDown = false`; the uninitialized
`transposition_range`, `delayBufferSize` and the empty buffer are junk
arguments. -/
def PitchShifter.construct (tr dbs : ℤ) (db : AudioBuffer α) : PitchShifter α :=
  { sawtoothPhase1 := fun _ => 0
    sawtoothPhase2 := fun _ => 1 / 2
    sawtoothFrequency := 0
    sampleRate := 44100
    delayBufferWritePosition := 0
    transposition_range := tr
    delayBufferSize := dbs
    pitchUporDown := false
    delayBuffer := db }

/-- Models `PitchShifter::initialize(SamplesPerBlockExpected, SampleRate)`
(PitchShifter.h lines 21-27). -/
def PitchShifter.initEngine (st : PitchShifter α) (SamplesPerBlockExpected : ℤ)
    (SampleRate : α) : PitchShifter α :=
  let tr := cppTrunc ((1 / 100 : α) * SampleRate)
  let size := SamplesPerBlockExpected + tr
  { st with
    transposition_range := tr
    delayBufferSize := size
    delayBuffer := AudioBuffer.clear (AudioBuffer.setSize st.delayBuffer 2 size) }

/-- Models `PitchShifter::sawtooth1(maxDelayInSamples, channel)`
(PitchShifter.h lines 96-103): `samplespercycle = sampleRate/sawtoothFrequency`,
the channel's phase is advanced by `1/samplespercycle` and wrapped at `1`,
and the returned delay amount is `maxDelayInSamples*phase` for pitch-down or
`maxDelayInSamples*(1-phase)` for pitch-up. -/
def PitchShifter.sawtooth1 (st : PitchShifter α) (maxDelayInSamples : ℤ) (channel : Fin 2) :
    PitchShifter α × α :=
  let samplespercycle := st.sampleRate / st.sawtoothFrequency
  let p := phaseStep (st.sawtoothPhase1 channel) (1 / samplespercycle)
  ({ st with sawtoothPhase1 := Function.update st.sawtoothPhase1 channel p },
   if st.pitchUporDown = false then (maxDelayInSamples : α) * p
   else (maxDelayInSamples : α) * (1 - p))

/-- Models `PitchShifter::sawtooth2(maxDelayInSamples, channel)`
(PitchShifter.h lines 106-114), identical to `sawtooth1` but acting on the
second phase array. -/
def PitchShifter.sawtooth2 (st : PitchShifter α) (maxDelayInSamples : ℤ) (channel : Fin 2) :
    PitchShifter α × α :=
  let samplespercycle := st.sampleRate / st.sawtoothFrequency
  let p := phaseStep (st.sawtoothPhase2 channel) (1 / samplespercycle)
  ({ st with sawtoothPhase2 := Function.update st.sawtoothPhase2 channel p },
   if st.pitchUporDown = false then (maxDelayInSamples : α) * p
   else (maxDelayInSamples : α) * (1 - p))

/-- Models `PitchShifter::fillDelaybuffer` (PitchShifter.h lines 73-88),
textually identical to `Flanger::fillDelaybuffer`. -/
def PitchShifter.fillDelaybuffer (st : PitchShifter α) (bufferLength : ℤ) (channel : Fin 2)
    (delayBufferLength : ℤ) (bufferData : ℤ → α) (gain : α) : PitchShifter α :=
  if delayBufferLength > bufferLength + st.delayBufferWritePosition then
    let whole := AudioBuffer.copyFromWithRamp st.delayBuffer channel
      st.delayBufferWritePosition bufferData bufferLength gain gain
    { st with delayBuffer := whole }
  else
    let delayBufferRemaining := delayBufferLength - st.delayBufferWritePosition
    let tailPart := AudioBuffer.copyFromWithRamp st.delayBuffer channel
      st.delayBufferWritePosition bufferData delayBufferRemaining gain gain
    let wrapped := AudioBuffer.copyFromWithRamp tailPart channel 0
      (fun k => bufferData (delayBufferRemaining + k)) (bufferLength - delayBufferRemaining)
      gain gain
    { st with delayBuffer := wrapped }

/-- One iteration of the loop of `PitchShifter::process` (PitchShifter.h lines
44-65) at loop index `sample`: advance both sawtooth modulators, truncate the
two delay amounts, read the delay buffer at the two positions (the read
pointer is taken at offset `startSample`, as in the source), apply the two
sine crossfade gains `sin(double_Pi*delaySamples_k/maxDelayInSamples)` — note
these are computed from the untruncated `delaySamples1/2` — and emit the
mixed, `deviceGain`-scaled sample. -/
def PitchShifter.processStep (sin : α → α) (double_Pi : α) (st : PitchShifter α)
    (startSample : ℤ) (maxDelayInSamples : ℤ) (channel : Fin 2) (deviceGain : α)
    (sample : ℕ) : PitchShifter α × α :=
  let L := st.delayBuffer.numSamples
  let q1 := PitchShifter.sawtooth1 st maxDelayInSamples channel
  let st1 := q1.1
  let delaySamples1 := q1.2
  let q2 := PitchShifter.sawtooth2 st1 maxDelayInSamples channel
  let st2 := q2.1
  let delaySamples2 := q2.2
  let delayTime1 := cppTrunc delaySamples1
  let delayTime2 := cppTrunc delaySamples2
  let readPosition1 := cppMod (L + st2.delayBufferWritePosition - delayTime1) L
  let readPosition2 := cppMod (L + st2.delayBufferWritePosition - delayTime2) L
  let gain1 := sin (double_Pi * delaySamples1 / (maxDelayInSamples : α))
  let gain2 := sin (double_Pi * delaySamples2 / (maxDelayInSamples : α))
  (st2,
   deviceGain * (gain1 * st2.delayBuffer.data channel
        (startSample + cppMod (readPosition1 + sample) L)
      + gain2 * st2.delayBuffer.data channel
        (startSample + cppMod (readPosition2 + sample) L)))

/-- The state after the first `n` iterations of the loop of
`PitchShifter::process`. -/
def PitchShifter.loopState (sin : α → α) (double_Pi : α) (st : PitchShifter α)
    (startSample : ℤ) (maxDelayInSamples : ℤ) (channel : Fin 2) (deviceGain : α) :
    ℕ → PitchShifter α
  | 0 => st
  | n + 1 =>
      (PitchShifter.processStep sin double_Pi
        (PitchShifter.loopState sin double_Pi st startSample maxDelayInSamples channel
          deviceGain n)
        startSample maxDelayInSamples channel deviceGain n).1

/-- Models `PitchShifter::process(inbuffer, startSample, numSamples, maxDelayInSamples, channel, deviceGain)`
(PitchShifter.h lines 37-67).  The input array of the processed channel is
`inp`, its total length (`inbuffer->getNumSamples()`) is `inLen`.  Returns the
final state and the list of emitted output samples. -/
def PitchShifter.process (sin : α → α) (double_Pi : α) (st : PitchShifter α) (inp : ℤ → α)
    (inLen : ℤ) (startSample : ℤ) (numSamples : ℕ) (maxDelayInSamples : ℤ)
    (channel : Fin 2) (deviceGain : α) : PitchShifter α × List α :=
  let st1 := PitchShifter.fillDelaybuffer st inLen channel st.delayBuffer.numSamples
    (fun i => inp (startSample + i)) 1
  (PitchShifter.loopState sin double_Pi st1 startSample maxDelayInSamples channel deviceGain
      numSamples,
   List.ofFn fun i : Fin numSamples =>
     (PitchShifter.processStep sin double_Pi
        (PitchShifter.loopState sin double_Pi st1 startSample maxDelayInSamples channel
          deviceGain i)
        startSample maxDelayInSamples channel deviceGain i).2)

/-- Models `PitchShifter::adjustDelayBufferWritePosition(numsamplesInBuffer)`
(PitchShifter.h lines 121-125). -/
def PitchShifter.adjustDelayBufferWritePosition (st : PitchShifter α)
    (numsamplesInBuffer : ℤ) : PitchShifter α :=
  { st with delayBufferWritePosition :=
      cppMod (st.delayBufferWritePosition + numsamplesInBuffer) st.delayBufferSize }

/-- Models `PitchShifter::setUp`. -/
def PitchShifter.setUp (st : PitchShifter α) : PitchShifter α :=
  { st with pitchUporDown := true }

/-- Models `PitchShifter::setDown`. -/
def PitchShifter.setDown (st : PitchShifter α) : PitchShifter α :=
  { st with pitchUporDown := false }

/-- Models `PitchShifter::setLevel(rate)`. -/
def PitchShifter.setLevel (st : PitchShifter α) (rate : α) : PitchShifter α :=
  { st with sawtoothFrequency := rate }

/-- The two-branch ring-buffer block write that is the common body of
`Flanger::fillDelaybuffer` and `PitchShifter::fillDelaybuffer` (the two are
textually identical in the source), extracted once so its placement lemmas can
be shared. -/
def ringBlockWrite (b : AudioBuffer α) (channel : Fin 2) (wp bufferLength delayBufferLength : ℤ)
    (bufferData : ℤ → α) (gain : α) : AudioBuffer α :=
  if delayBufferLength > bufferLength + wp then
    AudioBuffer.copyFromWithRamp b channel wp bufferData bufferLength gain gain
  else
    let delayBufferRemaining := delayBufferLength - wp
    AudioBuffer.copyFromWithRamp
      (AudioBuffer.copyFromWithRamp b channel wp bufferData delayBufferRemaining gain gain)
      channel 0 (fun k => bufferData (delayBufferRemaining + k))
      (bufferLength - delayBufferRemaining) gain gain

/-- Division instrumented with its error case: `none` exactly when the divisor
is zero, otherwise the field quotient.  Used to express that the divisions in
`PitchShifter::sawtooth1/2` divide by zero precisely when `sawtoothFrequency`
is still at its default `0.0`. -/
def checkedDiv (a b : α) : Option α := if b = 0 then none else some (a / b)

/-- The per-sample phase increment computed at the top of
`PitchShifter::sawtooth1/2` (`samplespercycle = sampleRate/sawtoothFrequency;`
`... += 1/samplespercycle`), with both divisions instrumented by `checkedDiv`. -/
def sawtoothIncrementChecked (st : PitchShifter α) : Option α :=
  Option.bind (checkedDiv st.sampleRate st.sawtoothFrequency)
    (fun samplespercycle => checkedDiv 1 samplespercycle)

/-- One paired advance of the two sawtooth modulators of one channel, in the
order `PitchShifter::process` performs it: `sawtooth1` first, then `sawtooth2`
on the resulting state. -/
def sawtoothPairAdvance (st : PitchShifter α) (maxDelayInSamples : ℤ) (channel : Fin 2) :
    PitchShifter α :=
  (PitchShifter.sawtooth2 (PitchShifter.sawtooth1 st maxDelayInSamples channel).1
    maxDelayInSamples channel).1

/-- A caller-driven sequence of paired sawtooth advances on one channel: before
each pair the caller may change the shared frequency through `setLevel` (the
entry also carries the `maxDelayInSamples` argument of that advance).  Within
one pair both modulators read the same `sawtoothFrequency`, exactly as in
`PitchShifter::process`. -/
def runSawtoothPairs (channel : Fin 2) : List (α × ℤ) → PitchShifter α → PitchShifter α
  | [], st => st
  | q :: rest, st =>
      runSawtoothPairs channel rest
        (sawtoothPairAdvance (PitchShifter.setLevel st q.1) q.2 channel)

/-- The per-call parameters of one `PitchShifter::process` call in a
caller-driven sequence, together with the setter values the caller may apply
before the call and the amount committed through
`adjustDelayBufferWritePosition` after it. -/
structure PitchBlockCall (α : Type) where
  freq : α
  up : Bool
  inLen : ℤ
  startSample : ℤ
  numSamples : ℕ
  maxDelayInSamples : ℤ
  channel : Fin 2
  deviceGain : α
  advanceBy : ℤ

/-- Runs a sequence of `PitchShifter::process` calls on all-zero input blocks,
with arbitrary parameter settings and setter/commit calls in between, and
concatenates all emitted output samples. -/
def runZeroBlocks (sin : α → α) (double_Pi : α) :
    List (PitchBlockCall α) → PitchShifter α → PitchShifter α × List α
  | [], st => (st, [])
  | c :: rest, st =>
      let st1 := PitchShifter.setLevel st c.freq
      let st2 := if c.up then PitchShifter.setUp st1 else PitchShifter.setDown st1
      let r := PitchShifter.process sin double_Pi st2 (fun _ => 0) c.inLen c.startSample
        c.numSamples c.maxDelayInSamples c.channel c.deviceGain
      let st3 := PitchShifter.adjustDelayBufferWritePosition r.1 c.advanceBy
      let rest2 := runZeroBlocks sin double_Pi rest st3
      (rest2.1, r.2 ++ rest2.2)

/-- Concrete flanger state over `ℚ` with a negative modulator frequency:
the per-sample increment is `-22050/44100 = -1/2`. -/
def negIncState : Flanger ℚ :=
  { sinePhase := fun _ => 0
    sinefrequency := -22050
    flangerDepth := 0
    feedbackLevel := 0
    sampleRate := 44100
    delayBufferWritePosition := 0
    feedbackBufferWritePosition := 0
    transposition_range := 0
    delayBufferSize := 0
    delayBuffer := ⟨0, fun _ _ => 0⟩
    feedbackBuffer := ⟨0, fun _ _ => 0⟩ }

/-- One loop iteration of `Flanger::process` leaves the delay buffer untouched. -/
@[simp] theorem flangerStep_delayBuffer (sin : α → α) (double_Pi : α) (st : Flanger α)
    (inp : ℤ → α) (s m : ℤ) (ch : Fin 2) (g : α) (i : ℕ) :
    (Flanger.processStep sin double_Pi st inp s m ch g i).1.delayBuffer = st.delayBuffer := rfl

@[simp] theorem flangerStep_wp (sin : α → α) (double_Pi : α) (st : Flanger α)
    (inp : ℤ → α) (s m : ℤ) (ch : Fin 2) (g : α) (i : ℕ) :
    (Flanger.processStep sin double_Pi st inp s m ch g i).1.delayBufferWritePosition
      = st.delayBufferWritePosition := rfl

@[simp] theorem flangerStep_fwp (sin : α → α) (double_Pi : α) (st : Flanger α)
    (inp : ℤ → α) (s m : ℤ) (ch : Fin 2) (g : α) (i : ℕ) :
    (Flanger.processStep sin double_Pi st inp s m ch g i).1.feedbackBufferWritePosition
      = st.feedbackBufferWritePosition := rfl

@[simp] theorem flangerStep_size (sin : α → α) (double_Pi : α) (st : Flanger α)
    (inp : ℤ → α) (s m : ℤ) (ch : Fin 2) (g : α) (i : ℕ) :
    (Flanger.processStep sin double_Pi st inp s m ch g i).1.delayBufferSize
      = st.delayBufferSize := rfl

@[simp] theorem flangerStep_freq (sin : α → α) (double_Pi : α) (st : Flanger α)
    (inp : ℤ → α) (s m : ℤ) (ch : Fin 2) (g : α) (i : ℕ) :
    (Flanger.processStep sin double_Pi st inp s m ch g i).1.sinefrequency
      = st.sinefrequency := rfl

@[simp] theorem flangerStep_rate (sin : α → α) (double_Pi : α) (st : Flanger α)
    (inp : ℤ → α) (s m : ℤ) (ch : Fin 2) (g : α) (i : ℕ) :
    (Flanger.processStep sin double_Pi st inp s m ch g i).1.sampleRate = st.sampleRate := rfl

@[simp] theorem flangerStep_depth (sin : α → α) (double_Pi : α) (st : Flanger α)
    (inp : ℤ → α) (s m : ℤ) (ch : Fin 2) (g : α) (i : ℕ) :
    (Flanger.processStep sin double_Pi st inp s m ch g i).1.flangerDepth
      = st.flangerDepth := rfl

@[simp] theorem flangerStep_fbLevel (sin : α → α) (double_Pi : α) (st : Flanger α)
    (inp : ℤ → α) (s m : ℤ) (ch : Fin 2) (g : α) (i : ℕ) :
    (Flanger.processStep sin double_Pi st inp s m ch g i).1.feedbackLevel
      = st.feedbackLevel := rfl

@[simp] theorem flangerStep_fbNum (sin : α → α) (double_Pi : α) (st : Flanger α)
    (inp : ℤ → α) (s m : ℤ) (ch : Fin 2) (g : α) (i : ℕ) :
    (Flanger.processStep sin double_Pi st inp s m ch g i).1.feedbackBuffer.numSamples
      = st.feedbackBuffer.numSamples := rfl

@[simp] theorem flangerStep_sinePhase (sin : α → α) (double_Pi : α) (st : Flanger α)
    (inp : ℤ → α) (s m : ℤ) (ch : Fin 2) (g : α) (i : ℕ) :
    (Flanger.processStep sin double_Pi st inp s m ch g i).1.sinePhase
      = Function.update st.sinePhase ch
          (phaseStep (st.sinePhase ch) (st.sinefrequency / st.sampleRate)) := rfl

/-- Fields of the flanger state after `n` loop iterations: everything except
the sine phase and the feedback buffer is unchanged, and the phase of the
processed channel is the `n`-fold iterate of `phaseStep`. -/
theorem flangerLoop_delayBuffer (sin : α → α) (double_Pi : α) (st : Flanger α)
    (inp : ℤ → α) (s m : ℤ) (ch : Fin 2) (g : α) (n : ℕ) :
    (Flanger.loopState sin double_Pi st inp s m ch g n).delayBuffer = st.delayBuffer := by
  induction n with
  | zero => rfl
  | succ k ih => simp [Flanger.loopState, ih]

theorem flangerLoop_wp (sin : α → α) (double_Pi : α) (st : Flanger α)
    (inp : ℤ → α) (s m : ℤ) (ch : Fin 2) (g : α) (n : ℕ) :
    (Flanger.loopState sin double_Pi st inp s m ch g n).delayBufferWritePosition
      = st.delayBufferWritePosition := by
  induction n with
  | zero => rfl
  | succ k ih => simp [Flanger.loopState, ih]

theorem flangerLoop_fwp (sin : α → α) (double_Pi : α) (st : Flanger α)
    (inp : ℤ → α) (s m : ℤ) (ch : Fin 2) (g : α) (n : ℕ) :
    (Flanger.loopState sin double_Pi st inp s m ch g n).feedbackBufferWritePosition
      = st.feedbackBufferWritePosition := by
  induction n with
  | zero => rfl
  | succ k ih => simp [Flanger.loopState, ih]

theorem flangerLoop_freq (sin : α → α) (double_Pi : α) (st : Flanger α)
    (inp : ℤ → α) (s m : ℤ) (ch : Fin 2) (g : α) (n : ℕ) :
    (Flanger.loopState sin double_Pi st inp s m ch g n).sinefrequency = st.sinefrequency := by
  induction n with
  | zero => rfl
  | succ k ih => simp [Flanger.loopState, ih]

theorem flangerLoop_rate (sin : α → α) (double_Pi : α) (st : Flanger α)
    (inp : ℤ → α) (s m : ℤ) (ch : Fin 2) (g : α) (n : ℕ) :
    (Flanger.loopState sin double_Pi st inp s m ch g n).sampleRate = st.sampleRate := by
  induction n with
  | zero => rfl
  | succ k ih => simp [Flanger.loopState, ih]

theorem flangerLoop_depth (sin : α → α) (double_Pi : α) (st : Flanger α)
    (inp : ℤ → α) (s m : ℤ) (ch : Fin 2) (g : α) (n : ℕ) :
    (Flanger.loopState sin double_Pi st inp s m ch g n).flangerDepth = st.flangerDepth := by
  induction n with
  | zero => rfl
  | succ k ih => simp [Flanger.loopState, ih]

theorem flangerLoop_fbLevel (sin : α → α) (double_Pi : α) (st : Flanger α)
    (inp : ℤ → α) (s m : ℤ) (ch : Fin 2) (g : α) (n : ℕ) :
    (Flanger.loopState sin double_Pi st inp s m ch g n).feedbackLevel = st.feedbackLevel := by
  induction n with
  | zero => rfl
  | succ k ih => simp [Flanger.loopState, ih]

theorem flangerLoop_sinePhase (sin : α → α) (double_Pi : α) (st : Flanger α)
    (inp : ℤ → α) (s m : ℤ) (ch : Fin 2) (g : α) (n : ℕ) :
    (Flanger.loopState sin double_Pi st inp s m ch g n).sinePhase ch
      = phaseIterate (st.sinefrequency / st.sampleRate) n (st.sinePhase ch) := by
  induction n with
  | zero => rfl
  | succ k ih =>
      simp [Flanger.loopState, phaseIterate, ih, flangerLoop_freq, flangerLoop_rate]

/-- One loop iteration of `PitchShifter::process` leaves the delay buffer
untouched (the loop only reads it). -/
@[simp] theorem pitchStep_delayBuffer (sin : α → α) (double_Pi : α) (st : PitchShifter α)
    (s m : ℤ) (ch : Fin 2) (g : α) (i : ℕ) :
    (PitchShifter.processStep sin double_Pi st s m ch g i).1.delayBuffer
      = st.delayBuffer := rfl

@[simp] theorem pitchStep_wp (sin : α → α) (double_Pi : α) (st : PitchShifter α)
    (s m : ℤ) (ch : Fin 2) (g : α) (i : ℕ) :
    (PitchShifter.processStep sin double_Pi st s m ch g i).1.delayBufferWritePosition
      = st.delayBufferWritePosition := rfl

@[simp] theorem pitchStep_freq (sin : α → α) (double_Pi : α) (st : PitchShifter α)
    (s m : ℤ) (ch : Fin 2) (g : α) (i : ℕ) :
    (PitchShifter.processStep sin double_Pi st s m ch g i).1.sawtoothFrequency
      = st.sawtoothFrequency := rfl

@[simp] theorem pitchStep_rate (sin : α → α) (double_Pi : α) (st : PitchShifter α)
    (s m : ℤ) (ch : Fin 2) (g : α) (i : ℕ) :
    (PitchShifter.processStep sin double_Pi st s m ch g i).1.sampleRate = st.sampleRate := rfl

@[simp] theorem pitchStep_dir (sin : α → α) (double_Pi : α) (st : PitchShifter α)
    (s m : ℤ) (ch : Fin 2) (g : α) (i : ℕ) :
    (PitchShifter.processStep sin double_Pi st s m ch g i).1.pitchUporDown
      = st.pitchUporDown := rfl

@[simp] theorem pitchStep_phase1 (sin : α → α) (double_Pi : α) (st : PitchShifter α)
    (s m : ℤ) (ch : Fin 2) (g : α) (i : ℕ) :
    (PitchShifter.processStep sin double_Pi st s m ch g i).1.sawtoothPhase1
      = Function.update st.sawtoothPhase1 ch
          (phaseStep (st.sawtoothPhase1 ch) (1 / (st.sampleRate / st.sawtoothFrequency))) := rfl

@[simp] theorem pitchStep_phase2 (sin : α → α) (double_Pi : α) (st : PitchShifter α)
    (s m : ℤ) (ch : Fin 2) (g : α) (i : ℕ) :
    (PitchShifter.processStep sin double_Pi st s m ch g i).1.sawtoothPhase2
      = Function.update st.sawtoothPhase2 ch
          (phaseStep (st.sawtoothPhase2 ch) (1 / (st.sampleRate / st.sawtoothFrequency))) := rfl

/-- Fields of the pitch-shifter state after `n` loop iterations. -/
theorem pitchLoop_delayBuffer (sin : α → α) (double_Pi : α) (st : PitchShifter α)
    (s m : ℤ) (ch : Fin 2) (g : α) (n : ℕ) :
    (PitchShifter.loopState sin double_Pi st s m ch g n).delayBuffer = st.delayBuffer := by
  induction n with
  | zero => rfl
  | succ k ih => simp [PitchShifter.loopState, ih]

theorem pitchLoop_wp (sin : α → α) (double_Pi : α) (st : PitchShifter α)
    (s m : ℤ) (ch : Fin 2) (g : α) (n : ℕ) :
    (PitchShifter.loopState sin double_Pi st s m ch g n).delayBufferWritePosition
      = st.delayBufferWritePosition := by
  induction n with
  | zero => rfl
  | succ k ih => simp [PitchShifter.loopState, ih]

theorem pitchLoop_freq (sin : α → α) (double_Pi : α) (st : PitchShifter α)
    (s m : ℤ) (ch : Fin 2) (g : α) (n : ℕ) :
    (PitchShifter.loopState sin double_Pi st s m ch g n).sawtoothFrequency
      = st.sawtoothFrequency := by
  induction n with
  | zero => rfl
  | succ k ih => simp [PitchShifter.loopState, ih]

theorem pitchLoop_rate (sin : α → α) (double_Pi : α) (st : PitchShifter α)
    (s m : ℤ) (ch : Fin 2) (g : α) (n : ℕ) :
    (PitchShifter.loopState sin double_Pi st s m ch g n).sampleRate = st.sampleRate := by
  induction n with
  | zero => rfl
  | succ k ih => simp [PitchShifter.loopState, ih]

theorem pitchLoop_dir (sin : α → α) (double_Pi : α) (st : PitchShifter α)
    (s m : ℤ) (ch : Fin 2) (g : α) (n : ℕ) :
    (PitchShifter.loopState sin double_Pi st s m ch g n).pitchUporDown
      = st.pitchUporDown := by
  induction n with
  | zero => rfl
  | succ k ih => simp [PitchShifter.loopState, ih]

theorem pitchLoop_phase1 (sin : α → α) (double_Pi : α) (st : PitchShifter α)
    (s m : ℤ) (ch : Fin 2) (g : α) (n : ℕ) :
    (PitchShifter.loopState sin double_Pi st s m ch g n).sawtoothPhase1 ch
      = phaseIterate (1 / (st.sampleRate / st.sawtoothFrequency)) n (st.sawtoothPhase1 ch) := by
  induction n with
  | zero => rfl
  | succ k ih =>
      simp [PitchShifter.loopState, phaseIterate, ih, pitchLoop_freq, pitchLoop_rate]

theorem pitchLoop_phase2 (sin : α → α) (double_Pi : α) (st : PitchShifter α)
    (s m : ℤ) (ch : Fin 2) (g : α) (n : ℕ) :
    (PitchShifter.loopState sin double_Pi st s m ch g n).sawtoothPhase2 ch
      = phaseIterate (1 / (st.sampleRate / st.sawtoothFrequency)) n (st.sawtoothPhase2 ch) := by
  induction n with
  | zero => rfl
  | succ k ih =>
      simp [PitchShifter.loopState, phaseIterate, ih, pitchLoop_freq, pitchLoop_rate]

/-- `Flanger::fillDelaybuffer` only rewrites delay-buffer contents: every other
field of the state, and the allocated buffer length, is unchanged. -/
@[simp] theorem flangerFill_wp (st : Flanger α) (bl : ℤ) (ch : Fin 2) (dbl : ℤ)
    (data : ℤ → α) (g : α) :
    (Flanger.fillDelaybuffer st bl ch dbl data g).delayBufferWritePosition
      = st.delayBufferWritePosition := by
  unfold Flanger.fillDelaybuffer; split <;> rfl

@[simp] theorem flangerFill_fwp (st : Flanger α) (bl : ℤ) (ch : Fin 2) (dbl : ℤ)
    (data : ℤ → α) (g : α) :
    (Flanger.fillDelaybuffer st bl ch dbl data g).feedbackBufferWritePosition
      = st.feedbackBufferWritePosition := by
  unfold Flanger.fillDelaybuffer; split <;> rfl

@[simp] theorem flangerFill_sinePhase (st : Flanger α) (bl : ℤ) (ch : Fin 2) (dbl : ℤ)
    (data : ℤ → α) (g : α) :
    (Flanger.fillDelaybuffer st bl ch dbl data g).sinePhase = st.sinePhase := by
  unfold Flanger.fillDelaybuffer; split <;> rfl

@[simp] theorem flangerFill_freq (st : Flanger α) (bl : ℤ) (ch : Fin 2) (dbl : ℤ)
    (data : ℤ → α) (g : α) :
    (Flanger.fillDelaybuffer st bl ch dbl data g).sinefrequency = st.sinefrequency := by
  unfold Flanger.fillDelaybuffer; split <;> rfl

@[simp] theorem flangerFill_rate (st : Flanger α) (bl : ℤ) (ch : Fin 2) (dbl : ℤ)
    (data : ℤ → α) (g : α) :
    (Flanger.fillDelaybuffer st bl ch dbl data g).sampleRate = st.sampleRate := by
  unfold Flanger.fillDelaybuffer; split <;> rfl

@[simp] theorem flangerFill_depth (st : Flanger α) (bl : ℤ) (ch : Fin 2) (dbl : ℤ)
    (data : ℤ → α) (g : α) :
    (Flanger.fillDelaybuffer st bl ch dbl data g).flangerDepth = st.flangerDepth := by
  unfold Flanger.fillDelaybuffer; split <;> rfl

@[simp] theorem flangerFill_fbLevel (st : Flanger α) (bl : ℤ) (ch : Fin 2) (dbl : ℤ)
    (data : ℤ → α) (g : α) :
    (Flanger.fillDelaybuffer st bl ch dbl data g).feedbackLevel = st.feedbackLevel := by
  unfold Flanger.fillDelaybuffer; split <;> rfl

@[simp] theorem flangerFill_fbBuffer (st : Flanger α) (bl : ℤ) (ch : Fin 2) (dbl : ℤ)
    (data : ℤ → α) (g : α) :
    (Flanger.fillDelaybuffer st bl ch dbl data g).feedbackBuffer = st.feedbackBuffer := by
  unfold Flanger.fillDelaybuffer; split <;> rfl

@[simp] theorem flangerFill_numSamples (st : Flanger α) (bl : ℤ) (ch : Fin 2) (dbl : ℤ)
    (data : ℤ → α) (g : α) :
    (Flanger.fillDelaybuffer st bl ch dbl data g).delayBuffer.numSamples
      = st.delayBuffer.numSamples := by
  unfold Flanger.fillDelaybuffer; split <;> rfl

/-- `PitchShifter::fillDelaybuffer` likewise only rewrites buffer contents. -/
@[simp] theorem pitchFill_wp (st : PitchShifter α) (bl : ℤ) (ch : Fin 2) (dbl : ℤ)
    (data : ℤ → α) (g : α) :
    (PitchShifter.fillDelaybuffer st bl ch dbl data g).delayBufferWritePosition
      = st.delayBufferWritePosition := by
  unfold PitchShifter.fillDelaybuffer; split <;> rfl

@[simp] theorem pitchFill_phase1 (st : PitchShifter α) (bl : ℤ) (ch : Fin 2) (dbl : ℤ)
    (data : ℤ → α) (g : α) :
    (PitchShifter.fillDelaybuffer st bl ch dbl data g).sawtoothPhase1
      = st.sawtoothPhase1 := by
  unfold PitchShifter.fillDelaybuffer; split <;> rfl

@[simp] theorem pitchFill_phase2 (st : PitchShifter α) (bl : ℤ) (ch : Fin 2) (dbl : ℤ)
    (data : ℤ → α) (g : α) :
    (PitchShifter.fillDelaybuffer st bl ch dbl data g).sawtoothPhase2
      = st.sawtoothPhase2 := by
  unfold PitchShifter.fillDelaybuffer; split <;> rfl

@[simp] theorem pitchFill_freq (st : PitchShifter α) (bl : ℤ) (ch : Fin 2) (dbl : ℤ)
    (data : ℤ → α) (g : α) :
    (PitchShifter.fillDelaybuffer st bl ch dbl data g).sawtoothFrequency
      = st.sawtoothFrequency := by
  unfold PitchShifter.fillDelaybuffer; split <;> rfl

@[simp] theorem pitchFill_rate (st : PitchShifter α) (bl : ℤ) (ch : Fin 2) (dbl : ℤ)
    (data : ℤ → α) (g : α) :
    (PitchShifter.fillDelaybuffer st bl ch dbl data g).sampleRate = st.sampleRate := by
  unfold PitchShifter.fillDelaybuffer; split <;> rfl

@[simp] theorem pitchFill_dir (st : PitchShifter α) (bl : ℤ) (ch : Fin 2) (dbl : ℤ)
    (data : ℤ → α) (g : α) :
    (PitchShifter.fillDelaybuffer st bl ch dbl data g).pitchUporDown
      = st.pitchUporDown := by
  unfold PitchShifter.fillDelaybuffer; split <;> rfl

@[simp] theorem pitchFill_numSamples (st : PitchShifter α) (bl : ℤ) (ch : Fin 2) (dbl : ℤ)
    (data : ℤ → α) (g : α) :
    (PitchShifter.fillDelaybuffer st bl ch dbl data g).delayBuffer.numSamples
      = st.delayBuffer.numSamples := by
  unfold PitchShifter.fillDelaybuffer; split <;> rfl

/-- C9: `fillDelaybuffer` (the writeBlock operation) never moves the delay— or
feedback—buffer write cursor, on either engine and for any arguments; a whole
`process` call also leaves both cursors where they were; the cursors move only
through the `adjust...WritePosition` commit operations, which add the block
length and reduce by the member `delayBufferSize` (C++ `%=`). -/
theorem fill_and_commit_cursor_discipline :
    (∀ (st : Flanger α) (bl : ℤ) (ch : Fin 2) (dbl : ℤ) (data : ℤ → α) (g : α),
        (Flanger.fillDelaybuffer st bl ch dbl data g).delayBufferWritePosition
            = st.delayBufferWritePosition
          ∧ (Flanger.fillDelaybuffer st bl ch dbl data g).feedbackBufferWritePosition
            = st.feedbackBufferWritePosition)
    ∧ (∀ (st : PitchShifter α) (bl : ℤ) (ch : Fin 2) (dbl : ℤ) (data : ℤ → α) (g : α),
        (PitchShifter.fillDelaybuffer st bl ch dbl data g).delayBufferWritePosition
          = st.delayBufferWritePosition)
    ∧ (∀ (sin : α → α) (double_Pi : α) (st : Flanger α) (inp : ℤ → α) (inLen s : ℤ)
        (n : ℕ) (m : ℤ) (ch : Fin 2) (g : α),
        (Flanger.process sin double_Pi st inp inLen s n m ch g).1.delayBufferWritePosition
            = st.delayBufferWritePosition
          ∧ (Flanger.process sin double_Pi st inp inLen s n m ch g).1.feedbackBufferWritePosition
            = st.feedbackBufferWritePosition)
    ∧ (∀ (sin : α → α) (double_Pi : α) (st : PitchShifter α) (inp : ℤ → α) (inLen s : ℤ)
        (n : ℕ) (m : ℤ) (ch : Fin 2) (g : α),
        (PitchShifter.process sin double_Pi st inp inLen s n m ch g).1.delayBufferWritePosition
          = st.delayBufferWritePosition)
    ∧ (∀ (st : Flanger α) (nsa : ℤ),
        (Flanger.adjustDelayBufferWritePosition st nsa).delayBufferWritePosition
          = cppMod (st.delayBufferWritePosition + nsa) st.delayBufferSize)
    ∧ (∀ (st : Flanger α) (nsa : ℤ),
        (Flanger.adjustFeedBackBufferWritePosition st nsa).feedbackBufferWritePosition
          = cppMod (st.feedbackBufferWritePosition + nsa) st.delayBufferSize)
    ∧ (∀ (st : PitchShifter α) (nsa : ℤ),
        (PitchShifter.adjustDelayBufferWritePosition st nsa).delayBufferWritePosition
          = cppMod (st.delayBufferWritePosition + nsa) st.delayBufferSize) := by
  refine ⟨fun st bl ch dbl data g => ⟨flangerFill_wp .., flangerFill_fwp ..⟩,
    fun st bl ch dbl data g => pitchFill_wp ..,
    fun sin double_Pi st inp inLen s n m ch g => ?_,
    fun sin double_Pi st inp inLen s n m ch g => ?_,
    fun st nsa => rfl, fun st nsa => rfl, fun st nsa => rfl⟩
  · constructor
    · simp [Flanger.process, flangerLoop_wp]
    · simp [Flanger.process, flangerLoop_fwp]
  · simp [PitchShifter.process, pitchLoop_wp]

/-- C4: `initialize` consumes its `SampleRate` argument only for
`transposition_range` and the buffer capacity — every other field, in
particular the private `sampleRate` member, is untouched; that member is `44100`
from construction on both engines; consequently on any engine state whose
`sampleRate` member is `44100` (i.e. any reachable state), the per-sample phase
increment of the sine modulator is `sinefrequency/44100` and of each sawtooth
modulator is `sawtoothFrequency/44100`, regardless of the `SampleRate` that was
passed to `initialize`. -/
theorem initEngine_sampleRate_untouched (stF : Flanger α) (stP : PitchShifter α)
    (hF : stF.sampleRate = 44100) (hP : stP.sampleRate = 44100) :
    (∀ (blk : ℤ) (sr : α),
        ( Flanger.initEngine stF blk sr).sampleRate = stF.sampleRate
          ∧ ( Flanger.initEngine stF blk sr).sinePhase = stF.sinePhase
          ∧ ( Flanger.initEngine stF blk sr).sinefrequency = stF.sinefrequency
          ∧ ( Flanger.initEngine stF blk sr).flangerDepth = stF.flangerDepth
          ∧ ( Flanger.initEngine stF blk sr).feedbackLevel = stF.feedbackLevel
          ∧ ( Flanger.initEngine stF blk sr).delayBufferWritePosition
            = stF.delayBufferWritePosition
          ∧ ( Flanger.initEngine stF blk sr).feedbackBufferWritePosition
            = stF.feedbackBufferWritePosition)
    ∧ (∀ (blk : ℤ) (sr : α),
        ( PitchShifter.initEngine stP blk sr).sampleRate = stP.sampleRate
          ∧ ( PitchShifter.initEngine stP blk sr).sawtoothPhase1 = stP.sawtoothPhase1
          ∧ ( PitchShifter.initEngine stP blk sr).sawtoothPhase2 = stP.sawtoothPhase2
          ∧ ( PitchShifter.initEngine stP blk sr).sawtoothFrequency = stP.sawtoothFrequency
          ∧ ( PitchShifter.initEngine stP blk sr).pitchUporDown = stP.pitchUporDown
          ∧ ( PitchShifter.initEngine stP blk sr).delayBufferWritePosition
            = stP.delayBufferWritePosition)
    ∧ (∀ (tr dbs : ℤ) (db fb : AudioBuffer α),
        (Flanger.construct tr dbs db fb).sampleRate = (44100 : α))
    ∧ (∀ (tr dbs : ℤ) (db : AudioBuffer α),
        (PitchShifter.construct tr dbs db).sampleRate = (44100 : α))
    ∧ (∀ (sin : α → α) (double_Pi : α) (m : ℤ) (ch : Fin 2),
        (Flanger.lfo_sinewave sin double_Pi stF m ch).1.sinePhase ch
          = phaseStep (stF.sinePhase ch) (stF.sinefrequency / 44100))
    ∧ (∀ (m : ℤ) (ch : Fin 2),
        (PitchShifter.sawtooth1 stP m ch).1.sawtoothPhase1 ch
          = phaseStep (stP.sawtoothPhase1 ch) (stP.sawtoothFrequency / 44100))
    ∧ (∀ (m : ℤ) (ch : Fin 2),
        (PitchShifter.sawtooth2 stP m ch).1.sawtoothPhase2 ch
          = phaseStep (stP.sawtoothPhase2 ch) (stP.sawtoothFrequency / 44100)) := by
  refine ⟨fun blk sr => ⟨rfl, rfl, rfl, rfl, rfl, rfl, rfl⟩,
    fun blk sr => ⟨rfl, rfl, rfl, rfl, rfl, rfl⟩, fun tr dbs db fb => rfl,
    fun tr dbs db => rfl, fun sin double_Pi m ch => ?_, fun m ch => ?_, fun m ch => ?_⟩
  · simp [Flanger.lfo_sinewave, hF]
  · simp [PitchShifter.sawtooth1, hP, one_div_div]
  · simp [PitchShifter.sawtooth2, hP, one_div_div]

/-- Witness for C4 at the freshly constructed engines over `ℚ`. -/
theorem initEngine_sampleRate_untouched_witness :
    ((Flanger.construct 0 0 ⟨0, fun _ _ => (0 : ℚ)⟩ ⟨0, fun _ _ => 0⟩).sampleRate = 44100
        ∧ (PitchShifter.construct 0 0 ⟨0, fun _ _ => (0 : ℚ)⟩).sampleRate = 44100)
    ∧ (∀ (m : ℤ) (ch : Fin 2),
        (PitchShifter.sawtooth1 (PitchShifter.construct 0 0 ⟨0, fun _ _ => (0 : ℚ)⟩) m ch).1.sawtoothPhase1 ch
          = phaseStep ((PitchShifter.construct 0 0 ⟨0, fun _ _ => (0 : ℚ)⟩).sawtoothPhase1 ch)
              ((PitchShifter.construct 0 0 ⟨0, fun _ _ => (0 : ℚ)⟩).sawtoothFrequency / 44100)) :=
  ⟨⟨rfl, rfl⟩,
    (initEngine_sampleRate_untouched
      (Flanger.construct 0 0 ⟨0, fun _ _ => (0 : ℚ)⟩ ⟨0, fun _ _ => 0⟩)
      (PitchShifter.construct 0 0 ⟨0, fun _ _ => (0 : ℚ)⟩) rfl rfl).2.2.2.2.2.1⟩

/-- C10: each sawtooth advance computes `sampleRate/sawtoothFrequency`;
`sawtoothFrequency` is `0.0` from construction and `initialize` never writes
it, so the instrumented increment computation hits its division-by-zero branch
(`none`) on any state processed before a `setLevel` call; under the
precondition `sawtoothFrequency > 0` (with the positive member sample rate)
the error branch is unreachable and the increment is the value
`1/(sampleRate/sawtoothFrequency)` that both `sawtooth1` and `sawtooth2`
add to their phases. -/
theorem sawtooth_division_guard (st : PitchShifter α)
    (h1 : 0 < st.sawtoothFrequency) (h2 : 0 < st.sampleRate) :
    (∀ (tr dbs : ℤ) (db : AudioBuffer α),
        (PitchShifter.construct tr dbs db).sawtoothFrequency = (0 : α))
    ∧ (∀ (st2 : PitchShifter α) (blk : ℤ) (sr : α),
        ( PitchShifter.initEngine st2 blk sr).sawtoothFrequency = st2.sawtoothFrequency)
    ∧ (∀ (st2 : PitchShifter α), st2.sawtoothFrequency = 0
        → sawtoothIncrementChecked st2 = none)
    ∧ sawtoothIncrementChecked st = some (1 / (st.sampleRate / st.sawtoothFrequency))
    ∧ (∀ (m : ℤ) (ch : Fin 2),
        (PitchShifter.sawtooth1 st m ch).1.sawtoothPhase1 ch
          = phaseStep (st.sawtoothPhase1 ch) (1 / (st.sampleRate / st.sawtoothFrequency)))
    ∧ (∀ (m : ℤ) (ch : Fin 2),
        (PitchShifter.sawtooth2 st m ch).1.sawtoothPhase2 ch
          = phaseStep (st.sawtoothPhase2 ch) (1 / (st.sampleRate / st.sawtoothFrequency))) := by
  refine ⟨fun tr dbs db => rfl, fun st2 blk sr => rfl, fun st2 h => ?_, ?_,
    fun m ch => ?_, fun m ch => ?_⟩
  · simp [sawtoothIncrementChecked, checkedDiv, h]
  · have hf : st.sawtoothFrequency ≠ 0 := ne_of_gt h1
    have hq : st.sampleRate / st.sawtoothFrequency ≠ 0 := div_ne_zero (ne_of_gt h2) hf
    simp [sawtoothIncrementChecked, checkedDiv, hf, hq]
  · simp [PitchShifter.sawtooth1]
  · simp [PitchShifter.sawtooth2]

/-- Witness for C10 at a concrete state: the constructed engine after
`setLevel 5`. -/
theorem sawtooth_division_guard_witness :
    (0 : ℚ) < (PitchShifter.setLevel (PitchShifter.construct 0 0 ⟨0, fun _ _ => (0 : ℚ)⟩) 5).sawtoothFrequency
    ∧ (0 : ℚ) < (PitchShifter.setLevel (PitchShifter.construct 0 0 ⟨0, fun _ _ => (0 : ℚ)⟩) 5).sampleRate
    ∧ sawtoothIncrementChecked
        (PitchShifter.setLevel (PitchShifter.construct 0 0 ⟨0, fun _ _ => (0 : ℚ)⟩) 5)
      = some (1 / ((PitchShifter.setLevel (PitchShifter.construct 0 0 ⟨0, fun _ _ => (0 : ℚ)⟩) 5).sampleRate
          / (PitchShifter.setLevel (PitchShifter.construct 0 0 ⟨0, fun _ _ => (0 : ℚ)⟩) 5).sawtoothFrequency)) :=
  ⟨by norm_num [PitchShifter.setLevel, PitchShifter.construct],
   by norm_num [PitchShifter.setLevel, PitchShifter.construct],
   (sawtooth_division_guard
      (PitchShifter.setLevel (PitchShifter.construct 0 0 ⟨0, fun _ _ => (0 : ℚ)⟩) 5)
      (by norm_num [PitchShifter.setLevel, PitchShifter.construct])
      (by norm_num [PitchShifter.setLevel, PitchShifter.construct])).2.2.2.1⟩

/-- C7 (amended): when the phase lies in `[0,1)` and the per-sample increment
is nonnegative and below `1`, one `phaseStep` advance keeps the phase in
`[0,1)`; the phase written by `Flanger::lfo_sinewave` and by
`PitchShifter::sawtooth1/2` is exactly such a `phaseStep` advance with
increments `sinefrequency/sampleRate` and `1/(sampleRate/sawtoothFrequency)`
respectively.  (The nonnegativity assumption on the increment is necessary:
see the counterexample.) -/
theorem phase_wrap_invariant (sin : α → α) (double_Pi : α) (p inc : α)
    (h0 : 0 ≤ p) (h1 : p < 1) (h2 : 0 ≤ inc) (h3 : inc < 1) :
    (0 ≤ phaseStep p inc ∧ phaseStep p inc < 1)
    ∧ (∀ (st : Flanger α) (m : ℤ) (ch : Fin 2),
        (Flanger.lfo_sinewave sin double_Pi st m ch).1.sinePhase ch
          = phaseStep (st.sinePhase ch) (st.sinefrequency / st.sampleRate))
    ∧ (∀ (st : PitchShifter α) (m : ℤ) (ch : Fin 2),
        (PitchShifter.sawtooth1 st m ch).1.sawtoothPhase1 ch
          = phaseStep (st.sawtoothPhase1 ch) (1 / (st.sampleRate / st.sawtoothFrequency)))
    ∧ (∀ (st : PitchShifter α) (m : ℤ) (ch : Fin 2),
        (PitchShifter.sawtooth2 st m ch).1.sawtoothPhase2 ch
          = phaseStep (st.sawtoothPhase2 ch) (1 / (st.sampleRate / st.sawtoothFrequency))) := by
  refine ⟨?_, fun st m ch => by simp [Flanger.lfo_sinewave],
    fun st m ch => by simp [PitchShifter.sawtooth1],
    fun st m ch => by simp [PitchShifter.sawtooth2]⟩
  have hps : phaseStep p inc = if 1 ≤ p + inc then p + inc - 1 else p + inc := rfl
  rw [hps]
  constructor
  · split <;> linarith
  · split <;> linarith

/-- Counterexample to C7 as stated: in `negIncState` the channel-0 phase is
`0 ∈ [0,1)` and the per-sample increment `sinefrequency/sampleRate = -1/2` is
less than `1`, yet one advance of the sine modulator leaves the phase at
`-1/2`, outside `[0,1)`. -/
theorem phase_wrap_invariant_cex :
    ((0 : ℚ) ≤ negIncState.sinePhase 0 ∧ negIncState.sinePhase 0 < 1)
    ∧ negIncState.sinefrequency / negIncState.sampleRate < 1
    ∧ ¬ (0 ≤ (Flanger.lfo_sinewave (fun _ => (0 : ℚ)) 0 negIncState 5 0).1.sinePhase 0) := by
  refine ⟨⟨by norm_num [negIncState], by norm_num [negIncState]⟩,
    by norm_num [negIncState], ?_⟩
  norm_num [negIncState, Flanger.lfo_sinewave, phaseStep]

/-- Witness for the amended C7 at `p = 1/2`, `inc = 3/4` over `ℚ` (the advance
wraps: `phaseStep (1/2) (3/4) = 1/4`). -/
theorem phase_wrap_invariant_witness :
    ((0 : ℚ) ≤ 1 / 2 ∧ (1 / 2 : ℚ) < 1 ∧ (0 : ℚ) ≤ 3 / 4 ∧ (3 / 4 : ℚ) < 1)
    ∧ (0 ≤ phaseStep (1 / 2 : ℚ) (3 / 4) ∧ phaseStep (1 / 2 : ℚ) (3 / 4) < 1) :=
  ⟨⟨by norm_num, by norm_num, by norm_num, by norm_num⟩,
   (phase_wrap_invariant (fun _ => (0 : ℚ)) 0 (1 / 2) (3 / 4)
      (by norm_num) (by norm_num) (by norm_num) (by norm_num)).1⟩

/-- One `phaseStep` advance changes the phase by the increment minus an
integer (0 or 1, depending on whether the wrap fired). -/
theorem phaseStep_sub_int (p inc : α) : ∃ j : ℤ, phaseStep p inc = p + inc - j := by
  have hps : phaseStep p inc = if 1 ≤ p + inc then p + inc - 1 else p + inc := rfl
  rw [hps]
  split
  · exact ⟨1, by push_cast; ring⟩
  · exact ⟨0, by push_cast; ring⟩

/-- A paired advance (sawtooth1 then sawtooth2, same shared frequency) moves
the difference of the two phases of the advanced channel by an integer. -/
theorem sawtoothPairAdvance_diff (st : PitchShifter α) (m : ℤ) (ch : Fin 2) :
    ∃ j : ℤ,
      (sawtoothPairAdvance st m ch).sawtoothPhase2 ch
          - (sawtoothPairAdvance st m ch).sawtoothPhase1 ch
        = st.sawtoothPhase2 ch - st.sawtoothPhase1 ch + j := by
  obtain ⟨j1, hj1⟩ := phaseStep_sub_int (st.sawtoothPhase1 ch)
    (1 / (st.sampleRate / st.sawtoothFrequency))
  obtain ⟨j2, hj2⟩ := phaseStep_sub_int (st.sawtoothPhase2 ch)
    (1 / (st.sampleRate / st.sawtoothFrequency))
  refine ⟨j1 - j2, ?_⟩
  have hp1 : (sawtoothPairAdvance st m ch).sawtoothPhase1 ch
      = phaseStep (st.sawtoothPhase1 ch) (1 / (st.sampleRate / st.sawtoothFrequency)) := by
    simp [sawtoothPairAdvance, PitchShifter.sawtooth1, PitchShifter.sawtooth2]
  have hp2 : (sawtoothPairAdvance st m ch).sawtoothPhase2 ch
      = phaseStep (st.sawtoothPhase2 ch) (1 / (st.sampleRate / st.sawtoothFrequency)) := by
    simp [sawtoothPairAdvance, PitchShifter.sawtooth1, PitchShifter.sawtooth2]
  rw [hp1, hp2, hj1, hj2]
  push_cast
  ring

/-- Running any list of paired advances preserves the property that the two
phases of channel `ch` differ by `1/2` modulo `1` (indeed modulo any integer
drift). -/
theorem runSawtoothPairs_diff (ch : Fin 2) (l : List (α × ℤ)) :
    ∀ st : PitchShifter α,
      (∃ k : ℤ, st.sawtoothPhase2 ch - st.sawtoothPhase1 ch = 1 / 2 + k) →
      ∃ k : ℤ,
        (runSawtoothPairs ch l st).sawtoothPhase2 ch
            - (runSawtoothPairs ch l st).sawtoothPhase1 ch = 1 / 2 + k := by
  induction l with
  | nil => exact fun st h => h
  | cons q rest ih =>
      intro st h
      obtain ⟨k, hk⟩ := h
      refine ih (sawtoothPairAdvance (PitchShifter.setLevel st q.1) q.2 ch) ?_
      obtain ⟨j, hj⟩ := sawtoothPairAdvance_diff (PitchShifter.setLevel st q.1) q.2 ch
      refine ⟨k + j, ?_⟩
      have hset1 : (PitchShifter.setLevel st q.1).sawtoothPhase1 = st.sawtoothPhase1 := rfl
      have hset2 : (PitchShifter.setLevel st q.1).sawtoothPhase2 = st.sawtoothPhase2 := rfl
      rw [hj, hset1, hset2, hk]
      push_cast
      ring

/-- C8: on construction the two sawtooth phases of each channel are `0` and
`0.5`; each loop iteration of `PitchShifter::process` advances them exactly as
one `sawtoothPairAdvance` (both modulators reading the same shared
`sawtoothFrequency`); and after any caller-driven sequence of paired advances
(with arbitrary `setLevel` changes in between, both ramps always sharing the
frequency within a pair) the difference `phase2 - phase1` of the advanced
channel is still `1/2` modulo an integer, so the wrap points of the two ramps
never drift relative to each other. -/
theorem sawtooth_antiphase_invariant :
    (∀ (tr dbs : ℤ) (db : AudioBuffer α) (ch : Fin 2),
        (PitchShifter.construct tr dbs db).sawtoothPhase1 ch = 0
          ∧ (PitchShifter.construct tr dbs db).sawtoothPhase2 ch = (1 / 2 : α))
    ∧ (∀ (sin : α → α) (double_Pi : α) (st : PitchShifter α) (s m : ℤ) (ch : Fin 2)
        (g : α) (i : ℕ),
        (PitchShifter.processStep sin double_Pi st s m ch g i).1
          = sawtoothPairAdvance st m ch)
    ∧ (∀ (l : List (α × ℤ)) (tr dbs : ℤ) (db : AudioBuffer α) (ch : Fin 2),
        ∃ k : ℤ,
          (runSawtoothPairs ch l (PitchShifter.construct tr dbs db)).sawtoothPhase2 ch
              - (runSawtoothPairs ch l (PitchShifter.construct tr dbs db)).sawtoothPhase1 ch
            = 1 / 2 + k) := by
  refine ⟨fun tr dbs db ch => ⟨rfl, rfl⟩,
    fun sin double_Pi st s m ch g i => rfl,
    fun l tr dbs db ch => ?_⟩
  refine runSawtoothPairs_diff ch l (PitchShifter.construct tr dbs db) ⟨0, ?_⟩
  push_cast
  norm_num [PitchShifter.construct]

/-- The delay buffer written by `Flanger::fillDelaybuffer` is the shared
two-branch ring write. -/
theorem flangerFill_delayBuffer (st : Flanger α) (bl : ℤ) (ch : Fin 2) (dbl : ℤ)
    (data : ℤ → α) (g : α) :
    (Flanger.fillDelaybuffer st bl ch dbl data g).delayBuffer
      = ringBlockWrite st.delayBuffer ch st.delayBufferWritePosition bl dbl data g := by
  unfold Flanger.fillDelaybuffer ringBlockWrite
  split <;> rfl

/-- The delay buffer written by `PitchShifter::fillDelaybuffer` is the shared
two-branch ring write. -/
theorem pitchFill_delayBuffer (st : PitchShifter α) (bl : ℤ) (ch : Fin 2) (dbl : ℤ)
    (data : ℤ → α) (g : α) :
    (PitchShifter.fillDelaybuffer st bl ch dbl data g).delayBuffer
      = ringBlockWrite st.delayBuffer ch st.delayBufferWritePosition bl dbl data g := by
  unfold PitchShifter.fillDelaybuffer ringBlockWrite
  split <;> rfl

/-- Placement and frame property of the two-branch ring write: sample `i` of
the block lands, scaled by the gain, at ring index `(wp + i) mod L`, and every
cell of the channel not of that form keeps its old value. -/
theorem ringBlockWrite_placement (b : AudioBuffer α) (ch : Fin 2) (wp len L : ℤ)
    (data : ℤ → α) (g : α) (h1 : 0 ≤ wp) (h2 : wp < L) (h3 : 0 ≤ len) (h4 : len ≤ L) :
    (∀ i : ℤ, 0 ≤ i → i < len →
        (ringBlockWrite b ch wp len L data g).data ch ((wp + i) % L) = g * data i)
    ∧ (∀ j : ℤ, 0 ≤ j → j < L → (∀ i : ℤ, 0 ≤ i → i < len → j ≠ (wp + i) % L) →
        (ringBlockWrite b ch wp len L data g).data ch j = b.data ch j) := by
  unfold ringBlockWrite
  split
  case isTrue hc =>
    constructor
    · intro i hi0 hilen
      have hmod : (wp + i) % L = wp + i := Int.emod_eq_of_lt (by omega) (by omega)
      rw [hmod]
      show (if ch = ch ∧ wp ≤ wp + i ∧ wp + i < wp + len then g * data (wp + i - wp)
        else b.data ch (wp + i)) = g * data i
      rw [if_pos ⟨rfl, by omega, by omega⟩]
      have harg : wp + i - wp = i := by ring
      rw [harg]
    · intro j hj0 hjL hnot
      show (if ch = ch ∧ wp ≤ j ∧ j < wp + len then g * data (j - wp) else b.data ch j)
        = b.data ch j
      rw [if_neg]
      rintro ⟨-, hle, hlt⟩
      refine hnot (j - wp) (by omega) (by omega) ?_
      have harg : wp + (j - wp) = j := by ring
      rw [harg, Int.emod_eq_of_lt hj0 hjL]
  case isFalse hc =>
    constructor
    · intro i hi0 hilen
      by_cases hcase : wp + i < L
      · have hmod : (wp + i) % L = wp + i := Int.emod_eq_of_lt (by omega) hcase
        rw [hmod]
        show (if ch = ch ∧ 0 ≤ wp + i ∧ wp + i < 0 + (len - (L - wp)) then
            g * data (L - wp + (wp + i - 0))
          else if ch = ch ∧ wp ≤ wp + i ∧ wp + i < wp + (L - wp) then g * data (wp + i - wp)
          else b.data ch (wp + i)) = g * data i
        rw [if_neg (by rintro ⟨-, -, hlt⟩; omega), if_pos ⟨rfl, by omega, by omega⟩]
        have harg : wp + i - wp = i := by ring
        rw [harg]
      · have hsub : (wp + i) % L = (wp + i - L) % L := by
          have harg2 : wp + i - L = wp + i + L * (-1) := by ring
          rw [harg2, Int.add_mul_emod_self_left]
        have hmod : (wp + i) % L = wp + i - L := by
          rw [hsub]; exact Int.emod_eq_of_lt (by omega) (by omega)
        rw [hmod]
        show (if ch = ch ∧ 0 ≤ wp + i - L ∧ wp + i - L < 0 + (len - (L - wp)) then
            g * data (L - wp + (wp + i - L - 0))
          else if ch = ch ∧ wp ≤ wp + i - L ∧ wp + i - L < wp + (L - wp) then
            g * data (wp + i - L - wp)
          else b.data ch (wp + i - L)) = g * data i
        rw [if_pos ⟨rfl, by omega, by omega⟩]
        have harg : L - wp + (wp + i - L - 0) = i := by ring
        rw [harg]
    · intro j hj0 hjL hnot
      show (if ch = ch ∧ 0 ≤ j ∧ j < 0 + (len - (L - wp)) then g * data (L - wp + (j - 0))
        else if ch = ch ∧ wp ≤ j ∧ j < wp + (L - wp) then g * data (j - wp)
        else b.data ch j) = b.data ch j
      rw [if_neg, if_neg]
      · rintro ⟨-, hle, hlt⟩
        refine hnot (j - wp) (by omega) (by omega) ?_
        have harg : wp + (j - wp) = j := by ring
        rw [harg, Int.emod_eq_of_lt hj0 hjL]
      · rintro ⟨-, h0j, hjlt⟩
        refine hnot (j + (L - wp)) (by omega) (by omega) ?_
        have harg : wp + (j + (L - wp)) = j + L * 1 := by ring
        rw [harg, Int.add_mul_emod_self_left, Int.emod_eq_of_lt hj0 hjL]

/-- C6: for a block write of length at most the capacity (with the cursor in
range), each input sample `bufferData[i]`, scaled by the gain, is stored at
ring index `(writePosition + i) mod capacity`, and every other cell of that
channel is unchanged — on both engines. -/
theorem fillDelaybuffer_ring_placement (stF : Flanger α) (stP : PitchShifter α)
    (len L : ℤ) (ch : Fin 2) (data : ℤ → α) (g : α)
    (hF1 : 0 ≤ stF.delayBufferWritePosition) (hF2 : stF.delayBufferWritePosition < L)
    (hP1 : 0 ≤ stP.delayBufferWritePosition) (hP2 : stP.delayBufferWritePosition < L)
    (h3 : 0 ≤ len) (h4 : len ≤ L) :
    (∀ i : ℤ, 0 ≤ i → i < len →
        (Flanger.fillDelaybuffer stF len ch L data g).delayBuffer.data ch
            ((stF.delayBufferWritePosition + i) % L) = g * data i)
    ∧ (∀ j : ℤ, 0 ≤ j → j < L →
        (∀ i : ℤ, 0 ≤ i → i < len → j ≠ (stF.delayBufferWritePosition + i) % L) →
        (Flanger.fillDelaybuffer stF len ch L data g).delayBuffer.data ch j
          = stF.delayBuffer.data ch j)
    ∧ (∀ i : ℤ, 0 ≤ i → i < len →
        (PitchShifter.fillDelaybuffer stP len ch L data g).delayBuffer.data ch
            ((stP.delayBufferWritePosition + i) % L) = g * data i)
    ∧ (∀ j : ℤ, 0 ≤ j → j < L →
        (∀ i : ℤ, 0 ≤ i → i < len → j ≠ (stP.delayBufferWritePosition + i) % L) →
        (PitchShifter.fillDelaybuffer stP len ch L data g).delayBuffer.data ch j
          = stP.delayBuffer.data ch j) := by
  have hf := ringBlockWrite_placement stF.delayBuffer ch stF.delayBufferWritePosition len L
    data g hF1 hF2 h3 h4
  have hp := ringBlockWrite_placement stP.delayBuffer ch stP.delayBufferWritePosition len L
    data g hP1 hP2 h3 h4
  rw [flangerFill_delayBuffer, pitchFill_delayBuffer]
  exact ⟨hf.1, hf.2, hp.1, hp.2⟩

/-- Witness for C6 over `ℚ`: both freshly constructed engines with a
length-3 buffer, a block of 2 samples and gain 2. -/
theorem fillDelaybuffer_ring_placement_witness :
    ((0 : ℤ) ≤ (Flanger.construct 0 3 ⟨3, fun _ _ => (0 : ℚ)⟩ ⟨3, fun _ _ => 0⟩).delayBufferWritePosition
      ∧ (Flanger.construct 0 3 ⟨3, fun _ _ => (0 : ℚ)⟩ ⟨3, fun _ _ => 0⟩).delayBufferWritePosition < 3
      ∧ (0 : ℤ) ≤ (PitchShifter.construct 0 3 ⟨3, fun _ _ => (0 : ℚ)⟩).delayBufferWritePosition
      ∧ (PitchShifter.construct 0 3 ⟨3, fun _ _ => (0 : ℚ)⟩).delayBufferWritePosition < 3
      ∧ (0 : ℤ) ≤ 2 ∧ (2 : ℤ) ≤ 3)
    ∧ (∀ i : ℤ, 0 ≤ i → i < 2 →
        (Flanger.fillDelaybuffer (Flanger.construct 0 3 ⟨3, fun _ _ => (0 : ℚ)⟩ ⟨3, fun _ _ => 0⟩)
            2 0 3 (fun k => (k : ℚ) + 5) 2).delayBuffer.data 0
          (((Flanger.construct 0 3 ⟨3, fun _ _ => (0 : ℚ)⟩ ⟨3, fun _ _ => 0⟩).delayBufferWritePosition + i) % 3)
          = 2 * ((i : ℚ) + 5)) :=
  ⟨⟨by norm_num [Flanger.construct], by norm_num [Flanger.construct],
    by norm_num [PitchShifter.construct], by norm_num [PitchShifter.construct],
    by norm_num, by norm_num⟩,
   (fillDelaybuffer_ring_placement
      (Flanger.construct 0 3 ⟨3, fun _ _ => (0 : ℚ)⟩ ⟨3, fun _ _ => 0⟩)
      (PitchShifter.construct 0 3 ⟨3, fun _ _ => (0 : ℚ)⟩) 2 3 0 (fun k => (k : ℚ) + 5) 2
      (by norm_num [Flanger.construct]) (by norm_num [Flanger.construct])
      (by norm_num [PitchShifter.construct]) (by norm_num [PitchShifter.construct])
      (by norm_num) (by norm_num)).1⟩

/-- C3 (amended): one advance of the sine modulator returns
`(maxDelayInSamples/2)·(sin(2π·phase)+1)` with C++ integer division
`maxDelayInSamples/2`, a value oscillating over `[0, 2·(maxDelayInSamples/2)]`
(the largest even number at most `maxDelayInSamples`), and attaining
`2·(maxDelayInSamples/2)` — not `maxDelayInSamples` itself when that is odd —
at the sine peak. -/
theorem lfo_sinewave_range (st : Flanger ℝ) (m : ℤ) (ch : Fin 2) (hm : 0 ≤ m) :
    (Flanger.lfo_sinewave Real.sin Real.pi st m ch).2
        = ((cppDiv m 2 : ℤ) : ℝ)
          * (Real.sin (2 * Real.pi
              * ((Flanger.lfo_sinewave Real.sin Real.pi st m ch).1.sinePhase ch)) + 1)
    ∧ 0 ≤ (Flanger.lfo_sinewave Real.sin Real.pi st m ch).2
    ∧ (Flanger.lfo_sinewave Real.sin Real.pi st m ch).2 ≤ ((2 * cppDiv m 2 : ℤ) : ℝ)
    ∧ (Real.sin (2 * Real.pi
          * ((Flanger.lfo_sinewave Real.sin Real.pi st m ch).1.sinePhase ch)) = 1
        → (Flanger.lfo_sinewave Real.sin Real.pi st m ch).2
          = ((2 * cppDiv m 2 : ℤ) : ℝ)) := by
  have hupdate : (Flanger.lfo_sinewave Real.sin Real.pi st m ch).1.sinePhase ch
      = phaseStep (st.sinePhase ch) (st.sinefrequency / st.sampleRate) := by
    simp [Flanger.lfo_sinewave]
  have hval : (Flanger.lfo_sinewave Real.sin Real.pi st m ch).2
      = ((cppDiv m 2 : ℤ) : ℝ)
        * (Real.sin (2 * Real.pi
            * phaseStep (st.sinePhase ch) (st.sinefrequency / st.sampleRate)) + 1) := rfl
  rw [hupdate, hval]
  set s := Real.sin (2 * Real.pi
    * phaseStep (st.sinePhase ch) (st.sinefrequency / st.sampleRate)) with hs
  have hs1 : s ≤ 1 := Real.sin_le_one _
  have hs2 : -1 ≤ s := Real.neg_one_le_sin _
  have hc : (0 : ℤ) ≤ cppDiv m 2 := Int.tdiv_nonneg hm (by norm_num)
  have hcR : (0 : ℝ) ≤ ((cppDiv m 2 : ℤ) : ℝ) := by exact_mod_cast hc
  refine ⟨rfl, by nlinarith, ?_, ?_⟩
  · push_cast
    nlinarith
  · intro h1
    rw [h1]
    push_cast
    ring

/-- Counterexample to C3 as stated: with `maxDelayInSamples = 1` and the
modulator at its sine peak (phase `1/4`, `sin(2π·phase) = 1`), the returned
delay time is `0`, not `1`: the C++ integer division `1/2 = 0` collapses the
whole waveform, so the output never attains `maxDelayInSamples` for odd
values. -/
theorem lfo_sinewave_range_cex :
    Real.sin (2 * Real.pi
        * ((Flanger.lfo_sinewave Real.sin Real.pi
            { sinePhase := fun _ => 1 / 4
              sinefrequency := 0
              flangerDepth := 0
              feedbackLevel := 0
              sampleRate := 44100
              delayBufferWritePosition := 0
              feedbackBufferWritePosition := 0
              transposition_range := 0
              delayBufferSize := 0
              delayBuffer := ⟨0, fun _ _ => 0⟩
              feedbackBuffer := ⟨0, fun _ _ => 0⟩ } 1 0).1.sinePhase 0)) = 1
    ∧ (Flanger.lfo_sinewave Real.sin Real.pi
        { sinePhase := fun _ => 1 / 4
          sinefrequency := 0
          flangerDepth := 0
          feedbackLevel := 0
          sampleRate := 44100
          delayBufferWritePosition := 0
          feedbackBufferWritePosition := 0
          transposition_range := 0
          delayBufferSize := 0
          delayBuffer := ⟨0, fun _ _ => 0⟩
          feedbackBuffer := ⟨0, fun _ _ => 0⟩ } 1 0).2 = 0
    ∧ (0 : ℝ) ≠ ((1 : ℤ) : ℝ) := by
  have hphase : phaseStep ((1 : ℝ) / 4) (0 / 44100) = 1 / 4 := by
    have hps : phaseStep ((1 : ℝ) / 4) (0 / 44100)
        = if (1 : ℝ) ≤ 1 / 4 + 0 / 44100 then 1 / 4 + 0 / 44100 - 1 else 1 / 4 + 0 / 44100 :=
      rfl
    rw [hps]
    norm_num
  have hdiv : cppDiv 1 2 = 0 := by decide
  refine ⟨?_, ?_, by norm_num⟩
  · have hupd : (Flanger.lfo_sinewave Real.sin Real.pi
        { sinePhase := fun _ => (1 : ℝ) / 4
          sinefrequency := 0
          flangerDepth := 0
          feedbackLevel := 0
          sampleRate := 44100
          delayBufferWritePosition := 0
          feedbackBufferWritePosition := 0
          transposition_range := 0
          delayBufferSize := 0
          delayBuffer := ⟨0, fun _ _ => 0⟩
          feedbackBuffer := ⟨0, fun _ _ => 0⟩ } 1 0).1.sinePhase 0 = 1 / 4 := by
      norm_num [Flanger.lfo_sinewave, phaseStep]
    rw [hupd]
    have harg : 2 * Real.pi * ((1 : ℝ) / 4) = Real.pi / 2 := by ring
    rw [harg, Real.sin_pi_div_two]
  · have hv : (Flanger.lfo_sinewave Real.sin Real.pi
        { sinePhase := fun _ => (1 : ℝ) / 4
          sinefrequency := 0
          flangerDepth := 0
          feedbackLevel := 0
          sampleRate := 44100
          delayBufferWritePosition := 0
          feedbackBufferWritePosition := 0
          transposition_range := 0
          delayBufferSize := 0
          delayBuffer := ⟨0, fun _ _ => 0⟩
          feedbackBuffer := ⟨0, fun _ _ => 0⟩ } 1 0).2
        = ((cppDiv 1 2 : ℤ) : ℝ)
          * (Real.sin (2 * Real.pi * phaseStep ((1 : ℝ) / 4) (0 / 44100)) + 1) := rfl
    rw [hv, hdiv]
    norm_num

/-- Witness for the amended C3 at `maxDelayInSamples = 220` on the
freshly-constructed engine. -/
theorem lfo_sinewave_range_witness :
    (0 : ℤ) ≤ 220
    ∧ 0 ≤ (Flanger.lfo_sinewave Real.sin Real.pi
        (Flanger.construct 0 0 ⟨0, fun _ _ => 0⟩ ⟨0, fun _ _ => 0⟩) 220 0).2
    ∧ (Flanger.lfo_sinewave Real.sin Real.pi
        (Flanger.construct 0 0 ⟨0, fun _ _ => 0⟩ ⟨0, fun _ _ => 0⟩) 220 0).2
      ≤ ((2 * cppDiv 220 2 : ℤ) : ℝ) :=
  ⟨by norm_num,
   (lfo_sinewave_range (Flanger.construct 0 0 ⟨0, fun _ _ => 0⟩ ⟨0, fun _ _ => 0⟩) 220 0
      (by norm_num)).2.1,
   (lfo_sinewave_range (Flanger.construct 0 0 ⟨0, fun _ _ => 0⟩ ⟨0, fun _ _ => 0⟩) 220 0
      (by norm_num)).2.2.1⟩

/-- The sawtooth advances touch only their phase array. -/
@[simp] theorem sawtooth1_fst_delayBuffer (st : PitchShifter α) (m : ℤ) (ch : Fin 2) :
    (PitchShifter.sawtooth1 st m ch).1.delayBuffer = st.delayBuffer := rfl

@[simp] theorem sawtooth2_fst_delayBuffer (st : PitchShifter α) (m : ℤ) (ch : Fin 2) :
    (PitchShifter.sawtooth2 st m ch).1.delayBuffer = st.delayBuffer := rfl

@[simp] theorem sawtooth1_fst_wp (st : PitchShifter α) (m : ℤ) (ch : Fin 2) :
    (PitchShifter.sawtooth1 st m ch).1.delayBufferWritePosition
      = st.delayBufferWritePosition := rfl

@[simp] theorem sawtooth2_fst_wp (st : PitchShifter α) (m : ℤ) (ch : Fin 2) :
    (PitchShifter.sawtooth2 st m ch).1.delayBufferWritePosition
      = st.delayBufferWritePosition := rfl

/-- A ring write of all-zero source samples into an all-zero buffer leaves
every cell zero. -/
theorem pitchFill_zero (st : PitchShifter α) (hz : ∀ c j, st.delayBuffer.data c j = 0)
    (bl : ℤ) (ch : Fin 2) (dbl : ℤ) (data : ℤ → α) (hdata : ∀ i, data i = 0) (g : α) :
    ∀ c j, (PitchShifter.fillDelaybuffer st bl ch dbl data g).delayBuffer.data c j = 0 := by
  intro c j
  rw [pitchFill_delayBuffer]
  unfold ringBlockWrite AudioBuffer.copyFromWithRamp
  split <;> simp <;> split_ifs <;> simp [hdata, hz]

/-- One loop iteration of `PitchShifter::process` emits `0` whenever the delay
buffer is all-zero: the output mixes no dry signal, only delay-buffer reads. -/
theorem pitchStep_out_zero (sin : α → α) (double_Pi : α) (st : PitchShifter α)
    (hz : ∀ c j, st.delayBuffer.data c j = 0) (s m : ℤ) (ch : Fin 2) (g : α) (i : ℕ) :
    (PitchShifter.processStep sin double_Pi st s m ch g i).2 = 0 := by
  unfold PitchShifter.processStep
  simp [hz]

/-- A `PitchShifter::process` call on an all-zero delay buffer with an all-zero
input block emits only zeros and leaves the delay buffer all-zero. -/
theorem pitchProcess_zero (sin : α → α) (double_Pi : α) (st : PitchShifter α)
    (hz : ∀ c j, st.delayBuffer.data c j = 0) (inLen s : ℤ) (n : ℕ) (m : ℤ)
    (ch : Fin 2) (g : α) :
    (PitchShifter.process sin double_Pi st (fun _ => 0) inLen s n m ch g).2
        = List.replicate n 0
    ∧ (∀ c j, (PitchShifter.process sin double_Pi st (fun _ => 0) inLen s n m ch g).1.delayBuffer.data c j
        = 0) := by
  have hz1 : ∀ c j,
      (PitchShifter.fillDelaybuffer st inLen ch st.delayBuffer.numSamples
        (fun i => (fun _ : ℤ => (0 : α)) (s + i)) 1).delayBuffer.data c j = 0 :=
    pitchFill_zero st hz inLen ch st.delayBuffer.numSamples _ (fun i => rfl) 1
  constructor
  · unfold PitchShifter.process
    have hfn : (fun i : Fin n =>
        (PitchShifter.processStep sin double_Pi
          (PitchShifter.loopState sin double_Pi
            (PitchShifter.fillDelaybuffer st inLen ch st.delayBuffer.numSamples
              (fun i => (fun _ : ℤ => (0 : α)) (s + i)) 1) s m ch g i)
          s m ch g i).2) = fun _ : Fin n => (0 : α) := by
      funext i
      refine pitchStep_out_zero sin double_Pi _ ?_ s m ch g i
      intro c j
      rw [pitchLoop_delayBuffer]
      exact hz1 c j
    simp only [hfn, List.ofFn_const]
  · intro c j
    unfold PitchShifter.process
    simp only [pitchLoop_delayBuffer]
    exact hz1 c j

/-- Over any caller-driven sequence of all-zero input blocks starting from an
all-zero delay buffer, every emitted sample is `0`. -/
theorem runZeroBlocks_silent (sin : α → α) (double_Pi : α)
    (calls : List (PitchBlockCall α)) :
    ∀ st : PitchShifter α, (∀ c j, st.delayBuffer.data c j = 0) →
      (runZeroBlocks sin double_Pi calls st).2
        = List.replicate (calls.map fun c => c.numSamples).sum 0 := by
  induction calls with
  | nil => intro st hz; simp [runZeroBlocks]
  | cons c rest ih =>
      intro st hz
      have hz2 : ∀ cc j,
          (if c.up then PitchShifter.setUp (PitchShifter.setLevel st c.freq)
            else PitchShifter.setDown (PitchShifter.setLevel st c.freq)).delayBuffer.data cc j
            = 0 := by
        intro cc j; split <;> exact hz cc j
      obtain ⟨hout, hbuf⟩ := pitchProcess_zero sin double_Pi _ hz2 c.inLen c.startSample
        c.numSamples c.maxDelayInSamples c.channel c.deviceGain
      have hz3 : ∀ cc j,
          (PitchShifter.adjustDelayBufferWritePosition
            (PitchShifter.process sin double_Pi
              (if c.up then PitchShifter.setUp (PitchShifter.setLevel st c.freq)
                else PitchShifter.setDown (PitchShifter.setLevel st c.freq))
              (fun _ => 0) c.inLen c.startSample c.numSamples c.maxDelayInSamples
              c.channel c.deviceGain).1
            c.advanceBy).delayBuffer.data cc j = 0 := fun cc j => hbuf cc j
      have hrec := ih _ hz3
      simp only [runZeroBlocks, hout, hrec, List.map_cons, List.sum_cons]
      rw [← List.replicate_add]

/-- C5: a freshly initialized pitch shifter (delay buffer cleared) processing
any sequence of all-zero blocks — with arbitrary direction, frequency,
`maxDelayInSamples`, gain, block geometry and commit amounts between calls —
emits exactly `0` at every sample. -/
theorem pitch_zero_input_silent (sin : α → α) (double_Pi : α) (tr dbs : ℤ)
    (db : AudioBuffer α) (blk : ℤ) (sr : α) (calls : List (PitchBlockCall α)) :
    (runZeroBlocks sin double_Pi calls
        ( PitchShifter.initEngine (PitchShifter.construct tr dbs db) blk sr)).2
      = List.replicate (calls.map fun c => c.numSamples).sum 0 :=
  runZeroBlocks_silent sin double_Pi calls _ (fun c j => rfl)

/-- Normalizing the C++ read-index computation: for a nonnegative inner
argument and positive buffer length, the truncating `%` agrees with
mathematical mod, and the in-block offset `i` folds in:
`((L + wp - d) % L + i) % L = (wp + i - d) mod L`. -/
theorem cppMod_add_index (L wp d : ℤ) (i : ℕ) (hL : 0 < L) (h : 0 ≤ L + wp - d) :
    cppMod (cppMod (L + wp - d) L + (i : ℤ)) L = (wp + (i : ℤ) - d) % L := by
  unfold cppMod
  rw [Int.tmod_eq_emod h hL.le]
  have hnn : 0 ≤ (L + wp - d) % L + (i : ℤ) := by
    have h1 := Int.emod_nonneg (L + wp - d) (ne_of_gt hL)
    have h2 : (0 : ℤ) ≤ (i : ℤ) := Int.natCast_nonneg i
    omega
  rw [Int.tmod_eq_emod hnn hL.le, Int.emod_add_emod]
  have h3 : L + wp - d + (i : ℤ) = (wp + (i : ℤ) - d) + L * 1 := by ring
  rw [h3, Int.add_mul_emod_self_left]

/-- Bounds for the sine-LFO waveform over `ℝ`: the value lies in
`[0, 2·(maxDelayInSamples/2)]` (integer division). -/
theorem lfoWave_bounds (m : ℤ) (hm : 0 ≤ m) (p : ℝ) :
    0 ≤ lfoWave Real.sin Real.pi m p
    ∧ lfoWave Real.sin Real.pi m p ≤ ((2 * cppDiv m 2 : ℤ) : ℝ) := by
  unfold lfoWave
  have hs1 : Real.sin (2 * Real.pi * p) ≤ 1 := Real.sin_le_one _
  have hs2 : -1 ≤ Real.sin (2 * Real.pi * p) := Real.neg_one_le_sin _
  have hc : (0 : ℤ) ≤ cppDiv m 2 := Int.tdiv_nonneg hm (by norm_num)
  have hcR : (0 : ℝ) ≤ ((cppDiv m 2 : ℤ) : ℝ) := by exact_mod_cast hc
  constructor
  · nlinarith
  · push_cast
    nlinarith

/-- Truncation toward zero of a value in `[0, b]` lies in `[0, b]`. -/
theorem cppTrunc_bounds_of (x : α) (b : ℤ) (h0 : 0 ≤ x) (hb : x ≤ (b : α)) :
    0 ≤ cppTrunc x ∧ cppTrunc x ≤ b := by
  unfold cppTrunc
  rw [if_pos h0]
  refine ⟨Int.floor_nonneg.mpr h0, ?_⟩
  have h2 := Int.floor_le_floor hb
  simpa using h2

/-- The truncated sine-LFO delay time lies in `[0, maxDelayInSamples]`. -/
theorem lfo_trunc_bounds (m : ℤ) (hm : 0 ≤ m) (p : ℝ) :
    0 ≤ cppTrunc (lfoWave Real.sin Real.pi m p)
    ∧ cppTrunc (lfoWave Real.sin Real.pi m p) ≤ m := by
  obtain ⟨h0, hub⟩ := lfoWave_bounds m hm p
  have h2 : 2 * cppDiv m 2 ≤ m := by
    unfold cppDiv
    rw [Int.tdiv_eq_ediv hm (by norm_num)]
    omega
  have hub2 : lfoWave Real.sin Real.pi m p ≤ (m : ℝ) := by
    refine le_trans hub ?_
    exact_mod_cast h2
  exact cppTrunc_bounds_of _ m h0 hub2

/-- Explicit form of the value emitted by one `Flanger::process` loop
iteration. -/
theorem flangerStep_out (sin : α → α) (double_Pi : α) (st : Flanger α) (inp : ℤ → α)
    (s m : ℤ) (ch : Fin 2) (g : α) (i : ℕ) :
    (Flanger.processStep sin double_Pi st inp s m ch g i).2
      = g * (let L := st.delayBuffer.numSamples
             let dT := lfoWave sin double_Pi m
               (phaseStep (st.sinePhase ch) (st.sinefrequency / st.sampleRate))
             let d := cppTrunc dT
             let f := dT - ((d : ℤ) : α)
             let rp1 := cppMod (L + st.delayBufferWritePosition - d) L
             let rp2 := cppMod (L + st.delayBufferWritePosition - d - 1) L
             let dr := fun r : ℤ => st.delayBuffer.data ch (s + cppMod (r + (i : ℤ)) L)
             let fr := fun r : ℤ => st.feedbackBuffer.data ch (s + cppMod (r + (i : ℤ)) L)
             if st.feedbackLevel = 0 then
               inp (s + (i : ℤ)) + st.flangerDepth * ((1 - f) * dr rp1 + f * dr rp2)
                 + st.feedbackLevel * ((1 - f) * fr rp1 + f * fr rp2)
             else
               st.flangerDepth * ((1 - f) * dr rp1 + f * dr rp2)
                 + st.feedbackLevel * ((1 - f) * fr rp1 + f * fr rp2)) := rfl

/-- C1: with `feedbackLevel = 0` (and any feedback-buffer contents), each
sample emitted by `Flanger::process` (called at `startSample = 0` with the
caller-contract bounds `0 ≤ writePosition` and `0 ≤ maxDelayInSamples <`
capacity) equals
`outputGain·(dry input + depth·((1-f)·delayRead(d) + f·delayRead(d+1)))`,
where `d`/`f` are the integer and fractional parts of the modulated delay
time of that sample and `delayRead(k)` is the (post-block-write) delay-buffer
cell at integer offset `k` behind the write cursor, advanced by the in-block
index and reduced by mathematical mod; with `feedbackLevel ≠ 0` the dry term
is omitted and the feedback-buffer interpolation (read from the loop state of
that iteration) is mixed instead. -/
theorem flanger_process_mix (st : Flanger ℝ) (inp : ℤ → ℝ) (inLen : ℤ) (n : ℕ) (m : ℤ)
    (ch : Fin 2) (g : ℝ) (hwp : 0 ≤ st.delayBufferWritePosition) (hm : 0 ≤ m)
    (hmL : m < st.delayBuffer.numSamples) :
    (st.feedbackLevel = 0 →
      (Flanger.process Real.sin Real.pi st inp inLen 0 n m ch g).2
        = List.ofFn (fun i : Fin n =>
            let dT := lfoWave Real.sin Real.pi m
              (phaseIterate (st.sinefrequency / st.sampleRate) ((i : ℕ) + 1) (st.sinePhase ch))
            let d := cppTrunc dT
            let f := dT - ((d : ℤ) : ℝ)
            let st1 := Flanger.fillDelaybuffer st inLen ch st.delayBuffer.numSamples
              (fun k => inp (0 + k)) 1
            g * (inp ((i : ℕ) : ℤ)
              + st.flangerDepth
                * ((1 - f) * st1.delayBuffer.data ch
                    ((st.delayBufferWritePosition + ((i : ℕ) : ℤ) - d)
                      % st.delayBuffer.numSamples)
                  + f * st1.delayBuffer.data ch
                    ((st.delayBufferWritePosition + ((i : ℕ) : ℤ) - (d + 1))
                      % st.delayBuffer.numSamples)))))
    ∧ (st.feedbackLevel ≠ 0 →
      (Flanger.process Real.sin Real.pi st inp inLen 0 n m ch g).2
        = List.ofFn (fun i : Fin n =>
            let dT := lfoWave Real.sin Real.pi m
              (phaseIterate (st.sinefrequency / st.sampleRate) ((i : ℕ) + 1) (st.sinePhase ch))
            let d := cppTrunc dT
            let f := dT - ((d : ℤ) : ℝ)
            let st1 := Flanger.fillDelaybuffer st inLen ch st.delayBuffer.numSamples
              (fun k => inp (0 + k)) 1
            let fbi := Flanger.loopState Real.sin Real.pi st1 inp 0 m ch g (i : ℕ)
            g * (st.flangerDepth
                * ((1 - f) * st1.delayBuffer.data ch
                    ((st.delayBufferWritePosition + ((i : ℕ) : ℤ) - d)
                      % st.delayBuffer.numSamples)
                  + f * st1.delayBuffer.data ch
                    ((st.delayBufferWritePosition + ((i : ℕ) : ℤ) - (d + 1))
                      % st.delayBuffer.numSamples))
              + st.feedbackLevel
                * ((1 - f) * fbi.feedbackBuffer.data ch
                    ((st.delayBufferWritePosition + ((i : ℕ) : ℤ) - d)
                      % st.delayBuffer.numSamples)
                  + f * fbi.feedbackBuffer.data ch
                    ((st.delayBufferWritePosition + ((i : ℕ) : ℤ) - (d + 1))
                      % st.delayBuffer.numSamples))))) := by
  have hL : (0 : ℤ) < st.delayBuffer.numSamples := lt_of_le_of_lt hm hmL
  constructor
  · intro hfb
    unfold Flanger.process
    dsimp only
    refine congrArg List.ofFn (funext fun i => ?_)
    rw [flangerStep_out]
    simp only [flangerLoop_delayBuffer, flangerLoop_wp, flangerLoop_freq, flangerLoop_rate,
      flangerLoop_depth, flangerLoop_fbLevel, flangerLoop_sinePhase, flangerFill_sinePhase,
      flangerFill_freq, flangerFill_rate, flangerFill_depth, flangerFill_fbLevel,
      flangerFill_wp, flangerFill_numSamples]
    have hIt : phaseIterate (st.sinefrequency / st.sampleRate) ((i : ℕ) + 1) (st.sinePhase ch)
        = phaseStep (phaseIterate (st.sinefrequency / st.sampleRate) (i : ℕ) (st.sinePhase ch))
            (st.sinefrequency / st.sampleRate) := rfl
    rw [hIt]
    obtain ⟨hd0, hdm⟩ := lfo_trunc_bounds m hm
      (phaseStep (phaseIterate (st.sinefrequency / st.sampleRate) (i : ℕ) (st.sinePhase ch))
        (st.sinefrequency / st.sampleRate))
    have hsub : st.delayBuffer.numSamples + st.delayBufferWritePosition
          - cppTrunc (lfoWave Real.sin Real.pi m
            (phaseStep (phaseIterate (st.sinefrequency / st.sampleRate) (i : ℕ)
              (st.sinePhase ch)) (st.sinefrequency / st.sampleRate))) - 1
        = st.delayBuffer.numSamples + st.delayBufferWritePosition
          - (cppTrunc (lfoWave Real.sin Real.pi m
            (phaseStep (phaseIterate (st.sinefrequency / st.sampleRate) (i : ℕ)
              (st.sinePhase ch)) (st.sinefrequency / st.sampleRate))) + 1) := by ring
    have e1 := cppMod_add_index st.delayBuffer.numSamples st.delayBufferWritePosition
      (cppTrunc (lfoWave Real.sin Real.pi m
        (phaseStep (phaseIterate (st.sinefrequency / st.sampleRate) (i : ℕ)
          (st.sinePhase ch)) (st.sinefrequency / st.sampleRate)))) (i : ℕ) hL (by omega)
    have e2 := cppMod_add_index st.delayBuffer.numSamples st.delayBufferWritePosition
      (cppTrunc (lfoWave Real.sin Real.pi m
        (phaseStep (phaseIterate (st.sinefrequency / st.sampleRate) (i : ℕ)
          (st.sinePhase ch)) (st.sinefrequency / st.sampleRate))) + 1) (i : ℕ) hL (by omega)
    simp only [hfb, hsub, e1, e2, zero_add, zero_mul, add_zero, mul_zero, if_pos]
  · intro hfb
    unfold Flanger.process
    dsimp only
    refine congrArg List.ofFn (funext fun i => ?_)
    rw [flangerStep_out]
    simp only [flangerLoop_delayBuffer, flangerLoop_wp, flangerLoop_freq, flangerLoop_rate,
      flangerLoop_depth, flangerLoop_fbLevel, flangerLoop_sinePhase, flangerFill_sinePhase,
      flangerFill_freq, flangerFill_rate, flangerFill_depth, flangerFill_fbLevel,
      flangerFill_wp, flangerFill_numSamples]
    have hIt : phaseIterate (st.sinefrequency / st.sampleRate) ((i : ℕ) + 1) (st.sinePhase ch)
        = phaseStep (phaseIterate (st.sinefrequency / st.sampleRate) (i : ℕ) (st.sinePhase ch))
            (st.sinefrequency / st.sampleRate) := rfl
    rw [hIt]
    obtain ⟨hd0, hdm⟩ := lfo_trunc_bounds m hm
      (phaseStep (phaseIterate (st.sinefrequency / st.sampleRate) (i : ℕ) (st.sinePhase ch))
        (st.sinefrequency / st.sampleRate))
    have hsub : st.delayBuffer.numSamples + st.delayBufferWritePosition
          - cppTrunc (lfoWave Real.sin Real.pi m
            (phaseStep (phaseIterate (st.sinefrequency / st.sampleRate) (i : ℕ)
              (st.sinePhase ch)) (st.sinefrequency / st.sampleRate))) - 1
        = st.delayBuffer.numSamples + st.delayBufferWritePosition
          - (cppTrunc (lfoWave Real.sin Real.pi m
            (phaseStep (phaseIterate (st.sinefrequency / st.sampleRate) (i : ℕ)
              (st.sinePhase ch)) (st.sinefrequency / st.sampleRate))) + 1) := by ring
    have e1 := cppMod_add_index st.delayBuffer.numSamples st.delayBufferWritePosition
      (cppTrunc (lfoWave Real.sin Real.pi m
        (phaseStep (phaseIterate (st.sinefrequency / st.sampleRate) (i : ℕ)
          (st.sinePhase ch)) (st.sinefrequency / st.sampleRate)))) (i : ℕ) hL (by omega)
    have e2 := cppMod_add_index st.delayBuffer.numSamples st.delayBufferWritePosition
      (cppTrunc (lfoWave Real.sin Real.pi m
        (phaseStep (phaseIterate (st.sinefrequency / st.sampleRate) (i : ℕ)
          (st.sinePhase ch)) (st.sinefrequency / st.sampleRate))) + 1) (i : ℕ) hL (by omega)
    simp only [hsub, e1, e2, zero_add, if_neg hfb]

/-- Witness for C1 at a concrete state. -/
theorem flanger_process_mix_witness :
    ((0 : ℤ) ≤ (Flanger.construct 0 8 ⟨8, fun _ _ => (0 : ℝ)⟩ ⟨8, fun _ _ => 0⟩).delayBufferWritePosition
      ∧ (0 : ℤ) ≤ 4
      ∧ (4 : ℤ) < (Flanger.construct 0 8 ⟨8, fun _ _ => (0 : ℝ)⟩ ⟨8, fun _ _ => 0⟩).delayBuffer.numSamples
      ∧ (Flanger.construct 0 8 ⟨8, fun _ _ => (0 : ℝ)⟩ ⟨8, fun _ _ => 0⟩).feedbackLevel = 0)
    ∧ (Flanger.process Real.sin Real.pi
        (Flanger.construct 0 8 ⟨8, fun _ _ => (0 : ℝ)⟩ ⟨8, fun _ _ => 0⟩)
        (fun _ => 0) 2 0 2 4 0 1).2
      = List.ofFn (fun i : Fin 2 =>
          let dT := lfoWave Real.sin Real.pi 4 (phaseIterate (0 / 44100) ((i : ℕ) + 1) 0)
          let d := cppTrunc dT
          let f := dT - ((d : ℤ) : ℝ)
          let st1 := Flanger.fillDelaybuffer
            (Flanger.construct 0 8 ⟨8, fun _ _ => (0 : ℝ)⟩ ⟨8, fun _ _ => 0⟩) 2 0 8
            (fun k => 0) 1
          1 * (0 + 0 * ((1 - f) * st1.delayBuffer.data 0 ((0 + ((i : ℕ) : ℤ) - d) % 8)
            + f * st1.delayBuffer.data 0 ((0 + ((i : ℕ) : ℤ) - (d + 1)) % 8)))) :=
  ⟨⟨le_refl 0, by norm_num, by norm_num [Flanger.construct], rfl⟩,
   (flanger_process_mix (Flanger.construct 0 8 ⟨8, fun _ _ => (0 : ℝ)⟩ ⟨8, fun _ _ => 0⟩)
      (fun _ => 0) 2 2 4 0 1 (le_refl 0) (by norm_num)
      (by norm_num [Flanger.construct])).1 rfl⟩

/-- A `phaseStep` advance with increment in `[0,1)` keeps a phase in `[0,1)`. -/
theorem phaseStep_mem (p inc : α) (h0 : 0 ≤ p) (h1 : p < 1) (h2 : 0 ≤ inc) (h3 : inc < 1) :
    0 ≤ phaseStep p inc ∧ phaseStep p inc < 1 := by
  have hps : phaseStep p inc = if 1 ≤ p + inc then p + inc - 1 else p + inc := rfl
  rw [hps]
  constructor
  · split <;> linarith
  · split <;> linarith

/-- Iterating `phaseStep` with increment in `[0,1)` keeps the phase in `[0,1)`. -/
theorem phaseIterate_mem (inc : α) (h2 : 0 ≤ inc) (h3 : inc < 1) (p : α)
    (h0 : 0 ≤ p) (h1 : p < 1) (n : ℕ) :
    0 ≤ phaseIterate inc n p ∧ phaseIterate inc n p < 1 := by
  induction n with
  | zero => exact ⟨h0, h1⟩
  | succ k ih => exact phaseStep_mem _ _ ih.1 ih.2 h2 h3

/-- The sawtooth delay amount (pitch-down `m·p`, pitch-up `m·(1-p)`) lies in
`[0, m]` for a phase in `[0,1)`. -/
theorem sawtooth_val_bounds (m : ℤ) (hm : 0 ≤ m) (dir : Bool) (p : ℝ)
    (h0 : 0 ≤ p) (h1 : p < 1) :
    0 ≤ (if dir = false then (m : ℝ) * p else (m : ℝ) * (1 - p))
    ∧ (if dir = false then (m : ℝ) * p else (m : ℝ) * (1 - p)) ≤ (m : ℝ) := by
  have hmR : (0 : ℝ) ≤ (m : ℝ) := by exact_mod_cast hm
  constructor
  · split <;> nlinarith
  · split <;> nlinarith

/-- Explicit form of the value emitted by one `PitchShifter::process` loop
iteration. -/
theorem pitchStep_out (sin : α → α) (double_Pi : α) (st : PitchShifter α)
    (s m : ℤ) (ch : Fin 2) (g : α) (i : ℕ) :
    (PitchShifter.processStep sin double_Pi st s m ch g i).2
      = g * (let L := st.delayBuffer.numSamples
             let inc := 1 / (st.sampleRate / st.sawtoothFrequency)
             let p1 := phaseStep (st.sawtoothPhase1 ch) inc
             let p2 := phaseStep (st.sawtoothPhase2 ch) inc
             let ds1 := if st.pitchUporDown = false then (m : α) * p1 else (m : α) * (1 - p1)
             let ds2 := if st.pitchUporDown = false then (m : α) * p2 else (m : α) * (1 - p2)
             let d1 := cppTrunc ds1
             let d2 := cppTrunc ds2
             let rp1 := cppMod (L + st.delayBufferWritePosition - d1) L
             let rp2 := cppMod (L + st.delayBufferWritePosition - d2) L
             sin (double_Pi * ds1 / (m : α))
                 * st.delayBuffer.data ch (s + cppMod (rp1 + (i : ℤ)) L)
               + sin (double_Pi * ds2 / (m : α))
                 * st.delayBuffer.data ch (s + cppMod (rp2 + (i : ℤ)) L)) := rfl

/-- C2 (amended): in `PitchShifter::process` (called at `startSample = 0`
under the caller contract: cursor in range, `0 ≤ maxDelayInSamples <` capacity,
phases in `[0,1)`, increment in `[0,1)`) each emitted sample is
`outputGain·(gain1·delayRead1 + gain2·delayRead2)` with no dry signal, where
`gain_k = sin(π · delaySamples_k / maxDelayInSamples)` is computed from the
UNTRUNCATED (float) delay amount `delaySamples_k` — not from the truncated
integer `delayTime_k` — while the read position does use the truncated value;
and at a sample where a sawtooth phase wraps to exactly `0` the corresponding
gain is exactly `0` (for either pitch direction). -/
theorem pitch_crossfade_gains (st : PitchShifter ℝ) (inp : ℤ → ℝ) (inLen : ℤ) (n : ℕ)
    (m : ℤ) (ch : Fin 2) (g : ℝ)
    (hwp : 0 ≤ st.delayBufferWritePosition) (hm : 0 ≤ m)
    (hmL : m < st.delayBuffer.numSamples)
    (hp1a : 0 ≤ st.sawtoothPhase1 ch) (hp1b : st.sawtoothPhase1 ch < 1)
    (hp2a : 0 ≤ st.sawtoothPhase2 ch) (hp2b : st.sawtoothPhase2 ch < 1)
    (hia : 0 ≤ 1 / (st.sampleRate / st.sawtoothFrequency))
    (hib : 1 / (st.sampleRate / st.sawtoothFrequency) < 1) :
    ((PitchShifter.process Real.sin Real.pi st inp inLen 0 n m ch g).2
      = List.ofFn (fun i : Fin n =>
          let inc := 1 / (st.sampleRate / st.sawtoothFrequency)
          let p1 := phaseIterate inc ((i : ℕ) + 1) (st.sawtoothPhase1 ch)
          let p2 := phaseIterate inc ((i : ℕ) + 1) (st.sawtoothPhase2 ch)
          let ds1 := if st.pitchUporDown = false then (m : ℝ) * p1 else (m : ℝ) * (1 - p1)
          let ds2 := if st.pitchUporDown = false then (m : ℝ) * p2 else (m : ℝ) * (1 - p2)
          let st1 := PitchShifter.fillDelaybuffer st inLen ch st.delayBuffer.numSamples
            (fun k => inp (0 + k)) 1
          g * (Real.sin (Real.pi * ds1 / (m : ℝ))
              * st1.delayBuffer.data ch
                ((st.delayBufferWritePosition + ((i : ℕ) : ℤ) - cppTrunc ds1)
                  % st.delayBuffer.numSamples)
            + Real.sin (Real.pi * ds2 / (m : ℝ))
              * st1.delayBuffer.data ch
                ((st.delayBufferWritePosition + ((i : ℕ) : ℤ) - cppTrunc ds2)
                  % st.delayBuffer.numSamples))))
    ∧ (∀ i : ℕ,
        phaseIterate (1 / (st.sampleRate / st.sawtoothFrequency)) (i + 1)
            (st.sawtoothPhase1 ch) = 0 →
        Real.sin (Real.pi
          * (if st.pitchUporDown = false
              then (m : ℝ) * phaseIterate (1 / (st.sampleRate / st.sawtoothFrequency)) (i + 1)
                (st.sawtoothPhase1 ch)
              else (m : ℝ) * (1 - phaseIterate (1 / (st.sampleRate / st.sawtoothFrequency))
                (i + 1) (st.sawtoothPhase1 ch))) / (m : ℝ)) = 0)
    ∧ (∀ i : ℕ,
        phaseIterate (1 / (st.sampleRate / st.sawtoothFrequency)) (i + 1)
            (st.sawtoothPhase2 ch) = 0 →
        Real.sin (Real.pi
          * (if st.pitchUporDown = false
              then (m : ℝ) * phaseIterate (1 / (st.sampleRate / st.sawtoothFrequency)) (i + 1)
                (st.sawtoothPhase2 ch)
              else (m : ℝ) * (1 - phaseIterate (1 / (st.sampleRate / st.sawtoothFrequency))
                (i + 1) (st.sawtoothPhase2 ch))) / (m : ℝ)) = 0) := by
  have hL : (0 : ℤ) < st.delayBuffer.numSamples := lt_of_le_of_lt hm hmL
  have hmask : ∀ p : ℝ, p = 0 →
      Real.sin (Real.pi
        * (if st.pitchUporDown = false then (m : ℝ) * p else (m : ℝ) * (1 - p)) / (m : ℝ))
        = 0 := by
    intro p hp
    subst hp
    by_cases hm0 : (m : ℝ) = 0
    · split <;> simp [hm0]
    · split
      · simp
      · rw [mul_sub, mul_one, mul_zero, sub_zero, mul_div_assoc, div_self hm0, mul_one,
          Real.sin_pi]
  refine ⟨?_, fun i hp => hmask _ hp, fun i hp => hmask _ hp⟩
  unfold PitchShifter.process
  dsimp only
  refine congrArg List.ofFn (funext fun i => ?_)
  rw [pitchStep_out]
  simp only [pitchLoop_delayBuffer, pitchLoop_wp, pitchLoop_freq, pitchLoop_rate,
    pitchLoop_dir, pitchLoop_phase1, pitchLoop_phase2, pitchFill_phase1, pitchFill_phase2,
    pitchFill_freq, pitchFill_rate, pitchFill_dir, pitchFill_wp, pitchFill_numSamples]
  have hIt1 : phaseIterate (1 / (st.sampleRate / st.sawtoothFrequency)) ((i : ℕ) + 1)
        (st.sawtoothPhase1 ch)
      = phaseStep (phaseIterate (1 / (st.sampleRate / st.sawtoothFrequency)) (i : ℕ)
          (st.sawtoothPhase1 ch)) (1 / (st.sampleRate / st.sawtoothFrequency)) := rfl
  have hIt2 : phaseIterate (1 / (st.sampleRate / st.sawtoothFrequency)) ((i : ℕ) + 1)
        (st.sawtoothPhase2 ch)
      = phaseStep (phaseIterate (1 / (st.sampleRate / st.sawtoothFrequency)) (i : ℕ)
          (st.sawtoothPhase2 ch)) (1 / (st.sampleRate / st.sawtoothFrequency)) := rfl
  rw [hIt1, hIt2]
  obtain ⟨hq1a, hq1b⟩ := phaseIterate_mem _ hia hib _ hp1a hp1b ((i : ℕ) + 1)
  obtain ⟨hq2a, hq2b⟩ := phaseIterate_mem _ hia hib _ hp2a hp2b ((i : ℕ) + 1)
  rw [hIt1] at hq1a hq1b
  rw [hIt2] at hq2a hq2b
  obtain ⟨hv1a, hv1b⟩ := sawtooth_val_bounds m hm st.pitchUporDown _ hq1a hq1b
  obtain ⟨hv2a, hv2b⟩ := sawtooth_val_bounds m hm st.pitchUporDown _ hq2a hq2b
  obtain ⟨hd1a, hd1b⟩ := cppTrunc_bounds_of _ m hv1a hv1b
  obtain ⟨hd2a, hd2b⟩ := cppTrunc_bounds_of _ m hv2a hv2b
  have e1 := cppMod_add_index st.delayBuffer.numSamples st.delayBufferWritePosition
    (cppTrunc (if st.pitchUporDown = false
      then (m : ℝ) * phaseStep (phaseIterate (1 / (st.sampleRate / st.sawtoothFrequency))
        (i : ℕ) (st.sawtoothPhase1 ch)) (1 / (st.sampleRate / st.sawtoothFrequency))
      else (m : ℝ) * (1 - phaseStep (phaseIterate (1 / (st.sampleRate / st.sawtoothFrequency))
        (i : ℕ) (st.sawtoothPhase1 ch)) (1 / (st.sampleRate / st.sawtoothFrequency)))))
    (i : ℕ) hL (by omega)
  have e2 := cppMod_add_index st.delayBuffer.numSamples st.delayBufferWritePosition
    (cppTrunc (if st.pitchUporDown = false
      then (m : ℝ) * phaseStep (phaseIterate (1 / (st.sampleRate / st.sawtoothFrequency))
        (i : ℕ) (st.sawtoothPhase2 ch)) (1 / (st.sampleRate / st.sawtoothFrequency))
      else (m : ℝ) * (1 - phaseStep (phaseIterate (1 / (st.sampleRate / st.sawtoothFrequency))
        (i : ℕ) (st.sawtoothPhase2 ch)) (1 / (st.sampleRate / st.sawtoothFrequency)))))
    (i : ℕ) hL (by omega)
  simp only [e1, e2, zero_add]

/-- Counterexample to C2 as stated: at a concrete state whose first sawtooth
lands on the fractional delay amount `3·(1/2) = 3/2` (truncated delay time
`1`), the single emitted sample is `1 = sin(π·(3/2)/3)`, but the claim's
formula with the truncated delay time predicts
`sin(π·1/3)·1 + sin(π·0/3)·0 = √3/2 ≠ 1`. -/
theorem pitch_crossfade_gains_cex :
    (PitchShifter.process Real.sin Real.pi
        { sawtoothPhase1 := fun _ => 0
          sawtoothPhase2 := fun _ => 1 / 2
          sawtoothFrequency := 22050
          sampleRate := 44100
          delayBufferWritePosition := 4
          transposition_range := 0
          delayBufferSize := 8
          pitchUporDown := false
          delayBuffer := ⟨8, fun _ j => if j = 3 then 1 else 0⟩ } (fun _ => 0) 1 0 1 3 0 1).2
      = [1]
    ∧ (3 : ℝ) * phaseStep 0 (1 / ((44100 : ℝ) / 22050)) = 3 * (1 / 2)
    ∧ cppTrunc ((3 : ℝ) * (1 / 2)) = 1
    ∧ Real.sin (Real.pi * ((1 : ℤ) : ℝ) / 3) * 1 + Real.sin (Real.pi * ((0 : ℤ) : ℝ) / 3) * 0
      ≠ 1 := by
  have hneq : Real.sin (Real.pi * ((1 : ℤ) : ℝ) / 3) * 1
      + Real.sin (Real.pi * ((0 : ℤ) : ℝ) / 3) * 0 ≠ 1 := by
    have h1 : Real.pi * ((1 : ℤ) : ℝ) / 3 = Real.pi / 3 := by push_cast; ring
    have hz : Real.pi * ((0 : ℤ) : ℝ) / 3 = 0 := by push_cast; ring
    rw [h1, hz, Real.sin_zero, Real.sin_pi_div_three]
    have hlt : Real.sqrt 3 < 2 := by
      nlinarith [Real.sq_sqrt (by norm_num : (0 : ℝ) ≤ 3), Real.sqrt_nonneg 3]
    intro heq
    nlinarith
  refine ⟨?_, by norm_num [phaseStep], by norm_num [cppTrunc], hneq⟩
  unfold PitchShifter.process
  dsimp only
  simp only [List.ofFn_succ, List.ofFn_zero]
  have h0 : ((0 : Fin 1) : ℕ) = 0 := rfl
  rw [h0]
  have hls : ∀ stz : PitchShifter ℝ,
      PitchShifter.loopState Real.sin Real.pi stz 0 3 0 1 0 = stz := fun stz => rfl
  rw [hls]
  rw [pitchStep_out]
  simp only [pitchFill_numSamples, pitchFill_wp, pitchFill_rate, pitchFill_freq,
    pitchFill_dir, pitchFill_phase1, pitchFill_phase2]
  norm_num [phaseStep]
  have ht : cppTrunc ((3 : ℝ) / 2) = 1 := by norm_num [cppTrunc]
  rw [ht]
  have hc1 : cppMod (cppMod (12 - 1) 8) 8 = 3 := by decide
  rw [hc1]
  have hd : (PitchShifter.fillDelaybuffer
      { sawtoothPhase1 := fun _ => 0
        sawtoothPhase2 := fun _ => 1 / 2
        sawtoothFrequency := 22050
        sampleRate := 44100
        delayBufferWritePosition := 4
        transposition_range := 0
        delayBufferSize := 8
        pitchUporDown := false
        delayBuffer := ⟨8, fun _ j => if j = 3 then (1 : ℝ) else 0⟩ }
      1 0 8 (fun i => 0) 1).delayBuffer.data 0 3 = 1 := by
    norm_num [PitchShifter.fillDelaybuffer, AudioBuffer.copyFromWithRamp]
  rw [hd]
  have harg : Real.pi * (3 / 2) / 3 = Real.pi / 2 := by ring
  rw [harg, Real.sin_pi_div_two, mul_one]

/-- Witness for the amended C2 at a concrete state: constructed engine with
`setLevel 22050` (increment `1/2`), `maxDelayInSamples = 4`, capacity `8`. -/
theorem pitch_crossfade_gains_witness :
    ((0 : ℤ) ≤ (PitchShifter.setLevel
        (PitchShifter.construct 0 8 ⟨8, fun _ _ => (0 : ℝ)⟩) 22050).delayBufferWritePosition
      ∧ (0 : ℤ) ≤ 4
      ∧ (4 : ℤ) < (PitchShifter.setLevel
          (PitchShifter.construct 0 8 ⟨8, fun _ _ => (0 : ℝ)⟩) 22050).delayBuffer.numSamples
      ∧ (0 : ℝ) ≤ (PitchShifter.setLevel
          (PitchShifter.construct 0 8 ⟨8, fun _ _ => (0 : ℝ)⟩) 22050).sawtoothPhase1 0
      ∧ (PitchShifter.setLevel
          (PitchShifter.construct 0 8 ⟨8, fun _ _ => (0 : ℝ)⟩) 22050).sawtoothPhase1 0 < 1
      ∧ (0 : ℝ) ≤ (PitchShifter.setLevel
          (PitchShifter.construct 0 8 ⟨8, fun _ _ => (0 : ℝ)⟩) 22050).sawtoothPhase2 0
      ∧ (PitchShifter.setLevel
          (PitchShifter.construct 0 8 ⟨8, fun _ _ => (0 : ℝ)⟩) 22050).sawtoothPhase2 0 < 1
      ∧ (0 : ℝ) ≤ 1 / ((44100 : ℝ) / 22050)
      ∧ 1 / ((44100 : ℝ) / 22050) < 1)
    ∧ (PitchShifter.process Real.sin Real.pi
        (PitchShifter.setLevel (PitchShifter.construct 0 8 ⟨8, fun _ _ => (0 : ℝ)⟩) 22050)
        (fun _ => 0) 2 0 2 4 0 1).2
      = List.ofFn (fun i : Fin 2 =>
          let inc := 1 / ((44100 : ℝ) / 22050)
          let p1 := phaseIterate inc ((i : ℕ) + 1) 0
          let p2 := phaseIterate inc ((i : ℕ) + 1) (1 / 2)
          let ds1 := ((4 : ℤ) : ℝ) * p1
          let ds2 := ((4 : ℤ) : ℝ) * p2
          let st1 := PitchShifter.fillDelaybuffer
            (PitchShifter.setLevel (PitchShifter.construct 0 8 ⟨8, fun _ _ => (0 : ℝ)⟩) 22050)
            2 0 8 (fun k => 0) 1
          1 * (Real.sin (Real.pi * ds1 / ((4 : ℤ) : ℝ))
              * st1.delayBuffer.data 0 ((0 + ((i : ℕ) : ℤ) - cppTrunc ds1) % 8)
            + Real.sin (Real.pi * ds2 / ((4 : ℤ) : ℝ))
              * st1.delayBuffer.data 0 ((0 + ((i : ℕ) : ℤ) - cppTrunc ds2) % 8))) :=
  ⟨⟨le_refl 0, by norm_num, by norm_num [PitchShifter.setLevel, PitchShifter.construct],
    le_refl 0, by norm_num [PitchShifter.setLevel, PitchShifter.construct],
    by norm_num [PitchShifter.setLevel, PitchShifter.construct],
    by norm_num [PitchShifter.setLevel, PitchShifter.construct],
    by norm_num, by norm_num⟩,
   (pitch_crossfade_gains
      (PitchShifter.setLevel (PitchShifter.construct 0 8 ⟨8, fun _ _ => (0 : ℝ)⟩) 22050)
      (fun _ => 0) 2 2 4 0 1 (le_refl 0) (by norm_num)
      (by norm_num [PitchShifter.setLevel, PitchShifter.construct]) (le_refl 0)
      (by norm_num [PitchShifter.setLevel, PitchShifter.construct])
      (by norm_num [PitchShifter.setLevel, PitchShifter.construct])
      (by norm_num [PitchShifter.setLevel, PitchShifter.construct])
      (by norm_num [PitchShifter.setLevel, PitchShifter.construct])
      (by norm_num [PitchShifter.setLevel, PitchShifter.construct])).1⟩
